import Mathlib

/-!
Shallow embedding of the acquisition-and-feature pipeline of the P5
repository (`src/core/data/fetch.py` and `src/core/data/feature.py`).

Images and the network are abstracted: a file system is a list of existing
file paths plus a list of existing directories, network retrieval is an
oracle assigning a per-unit outcome, and observable actions (network calls,
augmentation invocation, manifest persistence, transform application) are
recorded in an event trace.  Machine integers do not occur (Python integers
are unbounded); row indices are natural numbers and the configured row
limit is an integer.
-/

namespace P5

/-- Modelled from the spec: `core.util.constants` is not among the sources.
The spec (section 6) fixes the on-disk layout
`<root>_<feature-or-db>/<category>/<index>_0.<ext>` with `/` as the path
separator.  The source uses `PATH_SEP` as a one-character string; we carry
the character. -/
def PATH_SEP : Char := '/'

/-- Modelled from the spec: `DIRNAME_DELIM`, the delimiter substituted for
spaces in category labels, is not among the sources; a representative
single-character delimiter is chosen. -/
def DIRNAME_DELIM : Char := '_'

/-- Modelled from the spec: root prefix of the feature cache directories
(`<root>` in the layout of section 6). -/
def FEATURE_DIR_PATH : String := "data/ft"

/-- Modelled from the spec: directory of the canonical image cache, the
`db` instance of the layout `<root>_<feature-or-db>/`. -/
def IMGDIR_PATH : String := "data/ft_db/"

/-- Modelled from the spec: fixed location of the persisted manifest. -/
def DATASET_PATH : String := "data/dataset.csv"

/-- Model of Python `str.replace(a, b)` for a single-character pattern and
a single-character replacement: substitute every occurrence. -/
def pyReplaceChar (s : String) (a b : Char) : String :=
  ⟨s.data.map fun c => if c = a then b else c⟩

/-- Model of Python `str.split(sep)` for a one-character separator, on the
underlying character list: split at every occurrence, keeping empty
segments (`"".split(sep) = [""]`). -/
def pySplitChar (sep : Char) : List Char → List (List Char)
  | [] => [[]]
  | c :: cs =>
    match pySplitChar sep cs with
    | [] => [[c]]
    | h :: t => if c = sep then [] :: h :: t else (c :: h) :: t

/-- Python negative index `l[-1]` (with a default for the empty list, which
does not occur on the inputs of interest). -/
def pyNeg1 {α : Type} (l : List α) (d : α) : α := l.getLastD d

/-- Python negative index `l[-2]` (with a default). -/
def pyNeg2 {α : Type} (l : List α) (d : α) : α := l.dropLast.getLastD d

/-- Python `str(x)` on an optional string cell: a missing value (`NaN`)
prints as `"nan"`. -/
def pyStr (o : Option String) : String :=
  match o with
  | none => "nan"
  | some s => s

/-- Fuel-driven decimal digit expansion; with fuel above the number it
computes the standard base-10 representation.  Structural in the fuel so
that it evaluates by `rfl`/`decide`. -/
def natToDigitsFuel : Nat → Nat → List Char
  | 0, _ => []
  | f + 1, n =>
    if n < 10 then [Nat.digitChar n]
    else natToDigitsFuel f (n / 10) ++ [Nat.digitChar (n % 10)]

/-- Model of Python `f-string` conversion of a (non-negative) integer:
its decimal representation. -/
def natRepr (n : Nat) : String := ⟨natToDigitsFuel (n + 1) n⟩

/-- The ten decimal digit characters. -/
def decDigits : List Char := ['0', '1', '2', '3', '4', '5', '6', '7', '8', '9']

theorem natToDigitsFuel_fuel_irrel :
    ∀ f g n : Nat, n < f → n < g → natToDigitsFuel f n = natToDigitsFuel g n := by
  intro f
  induction f with
  | zero => intro g n hf; omega
  | succ f ih =>
    intro g n hf hg
    cases g with
    | zero => omega
    | succ g =>
      simp only [natToDigitsFuel]
      by_cases h10 : n < 10
      · simp [h10]
      · have hdiv : n / 10 < n := Nat.div_lt_self (by omega) (by omega)
        simp only [h10, if_false]
        rw [ih g (n / 10) (by omega) (by omega)]

theorem natToDigitsFuel_ne_nil :
    ∀ f n : Nat, n < f → natToDigitsFuel f n ≠ [] := by
  intro f
  induction f with
  | zero => intro n hf; omega
  | succ f _ =>
    intro n _
    simp only [natToDigitsFuel]
    by_cases h10 : n < 10
    · simp [h10]
    · simp [h10]

theorem digitChar_mem_decDigits (n : Nat) (h : n < 10) :
    Nat.digitChar n ∈ decDigits := by
  interval_cases n <;> decide

theorem natToDigitsFuel_subset_decDigits :
    ∀ f n : Nat, n < f → ∀ c ∈ natToDigitsFuel f n, c ∈ decDigits := by
  intro f
  induction f with
  | zero => intro n hf; omega
  | succ f ih =>
    intro n hf c hc
    by_cases h10 : n < 10
    · simp only [natToDigitsFuel, h10, if_true, List.mem_singleton] at hc
      subst hc
      exact digitChar_mem_decDigits n h10
    · have hdiv : n / 10 < n := Nat.div_lt_self (by omega) (by omega)
      simp only [natToDigitsFuel, h10, if_false, List.mem_append,
        List.mem_singleton] at hc
      rcases hc with hc | hc
      · exact ih (n / 10) (by omega) c hc
      · subst hc
        exact digitChar_mem_decDigits (n % 10) (Nat.mod_lt n (by omega))

theorem digitChar_inj_below_ten :
    ∀ m, m < 10 → ∀ n, n < 10 → Nat.digitChar m = Nat.digitChar n → m = n := by
  decide

theorem natToDigitsFuel_inj :
    ∀ f m n : Nat, m < f → n < f →
      natToDigitsFuel f m = natToDigitsFuel f n → m = n := by
  intro f
  induction f with
  | zero => intro m n hm; omega
  | succ f ih =>
    intro m n hm hn h
    by_cases hm10 : m < 10 <;> by_cases hn10 : n < 10
    · simp only [natToDigitsFuel, hm10, hn10, if_true,
        List.cons.injEq, and_true] at h
      exact digitChar_inj_below_ten m hm10 n hn10 h
    · exfalso
      have hdivn : n / 10 < n := Nat.div_lt_self (by omega) (by omega)
      have hne := natToDigitsFuel_ne_nil f (n / 10) (by omega)
      simp only [natToDigitsFuel, hm10, hn10, if_true, if_false] at h
      have := congrArg List.length h
      simp only [List.length_singleton, List.length_append] at this
      cases hnil : natToDigitsFuel f (n / 10) with
      | nil => exact hne hnil
      | cons a l => rw [hnil] at this; simp at this
    · exfalso
      have hdivm : m / 10 < m := Nat.div_lt_self (by omega) (by omega)
      have hne := natToDigitsFuel_ne_nil f (m / 10) (by omega)
      simp only [natToDigitsFuel, hm10, hn10, if_true, if_false] at h
      have := congrArg List.length h
      simp only [List.length_singleton, List.length_append] at this
      cases hnil : natToDigitsFuel f (m / 10) with
      | nil => exact hne hnil
      | cons a l => rw [hnil] at this; simp at this
    · have hdivm : m / 10 < m := Nat.div_lt_self (by omega) (by omega)
      have hdivn : n / 10 < n := Nat.div_lt_self (by omega) (by omega)
      simp only [natToDigitsFuel, hm10, hn10, if_false] at h
      have h2 := congrArg List.reverse h
      simp only [List.reverse_append, List.reverse_singleton,
        List.singleton_append, List.cons.injEq] at h2
      obtain ⟨hlast, hrev⟩ := h2
      have hmod : m % 10 = n % 10 :=
        digitChar_inj_below_ten (m % 10) (Nat.mod_lt m (by omega))
          (n % 10) (Nat.mod_lt n (by omega)) hlast
      have hdigits : natToDigitsFuel f (m / 10) = natToDigitsFuel f (n / 10) :=
        List.reverse_injective hrev
      have hdiv : m / 10 = n / 10 := ih (m / 10) (n / 10) (by omega) (by omega) hdigits
      omega

theorem natRepr_inj {m n : Nat} (h : natRepr m = natRepr n) : m = n := by
  have hdata : natToDigitsFuel (m + 1) m = natToDigitsFuel (n + 1) n := by
    have := congrArg String.data h
    simpa [natRepr] using this
  have hm : natToDigitsFuel (m + 1) m = natToDigitsFuel (m + n + 1) m :=
    natToDigitsFuel_fuel_irrel (m + 1) (m + n + 1) m (by omega) (by omega)
  have hn : natToDigitsFuel (n + 1) n = natToDigitsFuel (m + n + 1) n :=
    natToDigitsFuel_fuel_irrel (n + 1) (m + n + 1) n (by omega) (by omega)
  exact natToDigitsFuel_inj (m + n + 1) m n (by omega) (by omega)
    (hm ▸ hn ▸ hdata)

theorem natRepr_subset_decDigits (n : Nat) :
    ∀ c ∈ (natRepr n).data, c ∈ decDigits := by
  intro c hc
  exact natToDigitsFuel_subset_decDigits (n + 1) n (by omega) c hc

theorem natRepr_no_slash (n : Nat) : PATH_SEP ∉ (natRepr n).data := by
  intro h
  have := natRepr_subset_decDigits n PATH_SEP h
  revert this
  decide

theorem natRepr_no_underscore (n : Nat) : ('_' : Char) ∉ (natRepr n).data := by
  intro h
  have := natRepr_subset_decDigits n '_' h
  revert this
  decide

theorem natRepr_no_dot (n : Nat) : ('.' : Char) ∉ (natRepr n).data := by
  intro h
  have := natRepr_subset_decDigits n '.' h
  revert this
  decide

theorem pySplitChar_ne_nil (sep : Char) : ∀ l : List Char, pySplitChar sep l ≠ [] := by
  intro l
  cases l with
  | nil => simp [pySplitChar]
  | cons c cs =>
    simp only [pySplitChar]
    cases h : pySplitChar sep cs with
    | nil => simp
    | cons a t =>
      by_cases hc : c = sep <;> simp [hc]

theorem pySplitChar_append (sep : Char) :
    ∀ (a rest : List Char), sep ∉ a →
      pySplitChar sep (a ++ sep :: rest) = a :: pySplitChar sep rest := by
  intro a
  induction a with
  | nil =>
    intro rest _
    simp only [List.nil_append, pySplitChar]
    cases h : pySplitChar sep rest with
    | nil => exact absurd h (pySplitChar_ne_nil sep rest)
    | cons x t => simp
  | cons c a ih =>
    intro rest hmem
    have hc : c ≠ sep := fun h => hmem (h ▸ List.mem_cons_self c a)
    have ha : sep ∉ a := fun h => hmem (List.mem_cons_of_mem c h)
    simp only [List.cons_append, pySplitChar, List.append_eq]
    rw [ih rest ha]
    simp [hc]

theorem pySplitChar_no_sep (sep : Char) :
    ∀ l : List Char, sep ∉ l → pySplitChar sep l = [l] := by
  intro l
  induction l with
  | nil => intro _; rfl
  | cons c cs ih =>
    intro hmem
    have hc : c ≠ sep := fun h => hmem (h ▸ List.mem_cons_self c cs)
    have hcs : sep ∉ cs := fun h => hmem (List.mem_cons_of_mem c h)
    simp only [pySplitChar, ih hcs]
    simp [hc]

theorem pySplitChar_head_no_sep (sep : Char) :
    ∀ l : List Char, sep ∉ (pySplitChar sep l).headD [] := by
  intro l
  induction l with
  | nil => simp [pySplitChar]
  | cons c cs ih =>
    simp only [pySplitChar]
    cases h : pySplitChar sep cs with
    | nil => exact absurd h (pySplitChar_ne_nil sep cs)
    | cons a t =>
      rw [h] at ih
      by_cases hc : c = sep
      · simp [hc]
      · simp only [hc, if_false, List.headD_cons]
        intro hmem
        rcases List.mem_cons.mp hmem with h1 | h1
        · exact hc h1.symm
        · exact ih h1

theorem append_sep_inj {sep : Char} :
    ∀ (a₁ a₂ b₁ b₂ : List Char), sep ∉ a₁ → sep ∉ a₂ →
      a₁ ++ sep :: b₁ = a₂ ++ sep :: b₂ → a₁ = a₂ ∧ b₁ = b₂ := by
  intro a₁
  induction a₁ with
  | nil =>
    intro a₂ b₁ b₂ _ h₂ h
    cases a₂ with
    | nil => simpa using h
    | cons c t =>
      exfalso
      simp only [List.nil_append, List.cons_append, List.cons.injEq] at h
      exact h₂ (h.1 ▸ List.mem_cons_self c t)
  | cons c a₁ ih =>
    intro a₂ b₁ b₂ h₁ h₂ h
    cases a₂ with
    | nil =>
      exfalso
      simp only [List.nil_append, List.cons_append, List.cons.injEq] at h
      exact h₁ (h.1.symm ▸ List.mem_cons_self c a₁)
    | cons d a₂ =>
      simp only [List.cons_append, List.cons.injEq] at h
      obtain ⟨hcd, htail⟩ := h
      have h₁' : sep ∉ a₁ := fun hm => h₁ (List.mem_cons_of_mem c hm)
      have h₂' : sep ∉ a₂ := fun hm => h₂ (List.mem_cons_of_mem d hm)
      obtain ⟨he, hb⟩ := ih a₂ b₁ b₂ h₁' h₂' htail
      exact ⟨by rw [hcd, he], hb⟩

theorem string_data_inj {s t : String} (h : s.data = t.data) : s = t := by
  cases s
  cases t
  exact congrArg String.mk h

theorem string_append_left_cancel {p s t : String} (h : p ++ s = p ++ t) : s = t := by
  apply string_data_inj
  have hd := congrArg String.data h
  simp only [String.data_append] at hd
  exact List.append_cancel_left hd

theorem pyReplaceChar_id {s : String} {a b : Char} (h : a ∉ s.data) :
    pyReplaceChar s a b = s := by
  apply string_data_inj
  show s.data.map _ = s.data
  have hmap : s.data.map (fun c => if c = a then b else c) = s.data.map id := by
    apply List.map_congr_left
    intro c hc
    have hne : c ≠ a := fun he => h (he ▸ hc)
    simp [hne]
  rw [hmap, List.map_id]

/-- A manifest row (pandas `Series`) as the pipeline sees it: the `species`
column (used for the directory side effect), the column at position 9 (used
for the returned path string, see `img_path_from_row` in `fetch.py`), the
source-reference cell of the configured link column (`none` models a
missing value, `NaN`), and the `path` column filled by fetch (`none` models
`NaN`). -/
structure Row where
  species : String
  col9 : String
  url : Option String
  path : Option String
deriving DecidableEq

/-- The shared file system: existing files and existing directories. -/
structure FS where
  files : List String
  dirs : List String
deriving DecidableEq

/-- An uncaught Python exception aborting a pass.  `attrError` models the
`AttributeError` raised on a missing, non-string cell (`row[column].split`
while computing a fetch path, or `Image.open` handed the `NaN` float),
which neither `save_img` nor `pre_process` catches; `fileNotFound` models
the `FileNotFoundError` of `Image.open` on a path absent from disk;
`valueError` models the `ValueError` of `Image.save` on a file extension
PIL has no writer for.  The latter two are uncaught in `pre_process`. -/
inductive PyErr where
  | attrError
  | fileNotFound
  | valueError
deriving DecidableEq

/-- Outcome of the network-retrieve/normalize/persist block of one fetch
unit, mirroring the `except` clauses of `save_img`. -/
inductive FetchOutcome where
  | success
  | timeout
  | reqError
  | valueError
  | osError
  | unknown
deriving DecidableEq

/-- Observable actions of the pipeline, recorded in order. -/
inductive Event where
  | netCall (index : Nat)
  | augmentCall (degrees : String) (localPaths : List (Option String))
  | applyTransform (feature : String) (index : Nat)
  | persistCall (file : String)
deriving DecidableEq

/-- Execution state threaded through the pipeline: the file system plus the
event trace. -/
structure St where
  fs : FS
  events : List Event
deriving DecidableEq

/-- The directory created (when absent) by `Database.img_path_from_row`:
`IMGDIR_PATH` plus the space-sanitized `species` column. -/
def img_dir_str (species : String) : String :=
  IMGDIR_PATH ++ pyReplaceChar species ' ' DIRNAME_DELIM

/-- The path string returned by `Database.img_path_from_row`:
`IMGDIR_PATH` plus the space-sanitized column-9 value, the row index, the
optional extra keyword, and the fixed `_0.npy` suffix. -/
def img_path_str (category : String) (index : Nat) (extra : Option String) : String :=
  let out := IMGDIR_PATH ++ pyReplaceChar category ' ' DIRNAME_DELIM
    ++ String.singleton PATH_SEP ++ natRepr index
  let out2 := match extra with
    | some e => out ++ e
    | none => out
  out2 ++ "_0.npy"

/-- `Database.img_path_from_row` (fetch.py lines 103-126): creates the
species directory when absent (side effect on the file system), raises
`AttributeError` when the link cell is not a string, computes a dead
`extension` value, and returns the path built from column 9 and the
index. -/
def img_path_from_row (row : Row) (index : Nat) (extra : Option String) (fs : FS) :
    Except PyErr String × FS :=
  let dir := img_dir_str row.species
  let fs1 : FS := if dir ∈ fs.dirs then fs else ⟨fs.files, dir :: fs.dirs⟩
  match row.url with
  | none => (Except.error PyErr.attrError, fs1)
  | some u =>
    let extension := pyNeg1 (pySplitChar '.' u.data) []
    let _extUnused := if extension.length < 1 then "jpg".data else extension
    (Except.ok (img_path_str row.col9 index extra), fs1)

/-- `FeatureExtractor.dirpath_from_ft` (feature.py lines 68-73): the cache
root for a feature identifier; the empty identifier is mapped to `db`. -/
def dirpath_from_ft (save_path : String) (feature : String) : String :=
  let out_ft := if feature = "" then "db" else feature
  save_path ++ "_" ++ out_ft ++ "/"

/-- `FeatureExtractor.l_dirpath_from_row` (feature.py lines 59-62): the
per-category feature directory, rebuilt from the second-to-last component
of the row's `path` column. -/
def l_dirpath_from_row (save_path : String) (row : Row) (feature : String) : String :=
  let l_name := pyNeg2 (pySplitChar PATH_SEP (pyStr row.path).data) []
  dirpath_from_ft save_path feature ++ String.mk l_name ++ String.singleton PATH_SEP

/-- `FeatureExtractor.path_from_row_ft` (feature.py lines 64-66): the
feature output path, reusing the file name component of the row's `path`
column. -/
def path_from_row_ft (save_path : String) (row : Row) (feature : String) : String :=
  let f_name := pyNeg1 (pySplitChar PATH_SEP (pyStr row.path).data) []
  l_dirpath_from_row save_path row feature ++ String.mk f_name

/-- The composed path scheme of the claims: the feature output path of a
record of the given category, fetched at the given index, for the given
feature identifier — `img_path_from_row` composed with
`path_from_row_ft` at the default cache roots. -/
def pathScheme (category : String) (index : Nat) (feature : String) : String :=
  path_from_row_ft FEATURE_DIR_PATH
    ⟨category, category, some "", some (img_path_str category index none)⟩ feature

/-- `Database.num_rows` (fetch.py lines 51-61): scale the configured row
limit by the augmentation fan-out of the configured `degrees` mode. -/
def num_rows (limit : Option Int) (degrees : String) : Option Int :=
  match limit with
  | none => none
  | some n =>
    if degrees = "all" then some (n * 8)
    else if degrees = "flip" then some (n * 2)
    else if degrees = "rotate" then some (n * 4)
    else some n

/-- Claim C10: `Database.num_rows()` scales the configured row limit by the
augmentation fan-out — `8*n` for degrees `all`, `4*n` for `rotate`, `2*n`
for `flip`, `n` for any other degrees value, and `none` when no limit is
configured, regardless of degrees. -/
theorem num_rows_scales_by_fanout (n : Int) (degrees : String) :
    num_rows none degrees = none ∧
    num_rows (some n) "all" = some (8 * n) ∧
    num_rows (some n) "rotate" = some (4 * n) ∧
    num_rows (some n) "flip" = some (2 * n) ∧
    (degrees ≠ "all" → degrees ≠ "flip" → degrees ≠ "rotate" →
      num_rows (some n) degrees = some n) := by
  refine ⟨rfl, ?_, ?_, ?_, ?_⟩
  · simp [num_rows, Int.mul_comm]
  · simp [num_rows, Int.mul_comm]
  · simp [num_rows, Int.mul_comm]
  · intro h1 h2 h3
    simp [num_rows, h1, h2, h3]

/-- Witness for C10 at concrete inputs, exercising the default branch. -/
theorem num_rows_scales_by_fanout_witness :
    num_rows (some 3) "none" = some 3 ∧ num_rows (some 3) "all" = some (8 * 3) := by
  exact ⟨(num_rows_scales_by_fanout 3 "none").2.2.2.2 (by decide) (by decide) (by decide),
    (num_rows_scales_by_fanout 3 "none").2.1⟩

theorem data_singleton (c : Char) : (String.singleton c).data = [c] := rfl

theorem imgPathStr_data (c : String) (i : Nat) (hcs : (' ' : Char) ∉ c.data) :
    (img_path_str c i none).data =
      "data".data ++ PATH_SEP :: ("ft_db".data ++ PATH_SEP ::
        (c.data ++ PATH_SEP :: ((natRepr i).data ++ "_0.npy".data))) := by
  simp only [img_path_str, pyReplaceChar_id hcs, IMGDIR_PATH, String.data_append,
    data_singleton]
  simp [PATH_SEP, List.append_assoc, List.cons_append, List.singleton_append]

theorem fname_no_slash (i : Nat) : PATH_SEP ∉ (natRepr i).data ++ "_0.npy".data := by
  intro h
  rcases List.mem_append.mp h with h1 | h1
  · exact natRepr_no_slash i h1
  · revert h1
    decide

theorem pathScheme_split (c : String) (i : Nat) (hcs : (' ' : Char) ∉ c.data)
    (hcsl : PATH_SEP ∉ c.data) :
    pySplitChar PATH_SEP (img_path_str c i none).data =
      ["data".data, "ft_db".data, c.data, (natRepr i).data ++ "_0.npy".data] := by
  rw [imgPathStr_data c i hcs]
  rw [pySplitChar_append PATH_SEP "data".data _ (by decide)]
  rw [pySplitChar_append PATH_SEP "ft_db".data _ (by decide)]
  rw [pySplitChar_append PATH_SEP c.data _ hcsl]
  rw [pySplitChar_no_sep PATH_SEP _ (fname_no_slash i)]

theorem pathScheme_data (c : String) (i : Nat) (f : String)
    (hcs : (' ' : Char) ∉ c.data) (hcsl : PATH_SEP ∉ c.data) (hf : f ≠ "") :
    (pathScheme c i f).data =
      "data/ft_".data ++ (f.data ++ (PATH_SEP ::
        (c.data ++ (PATH_SEP :: ((natRepr i).data ++ "_0.npy".data))))) := by
  simp only [pathScheme, path_from_row_ft, l_dirpath_from_row, dirpath_from_ft,
    pyStr, pathScheme_split c i hcs hcsl, pyNeg1, pyNeg2, FEATURE_DIR_PATH]
  simp only [List.dropLast, List.getLastD, List.getLast, hf, if_false,
    String.data_append, data_singleton]
  simp [PATH_SEP, List.append_assoc, List.cons_append, List.singleton_append]

/-- Claim C4 counterexample: the path scheme is not injective over
`(category, index, feature_identifier)` triples — the distinct feature
identifiers `""` and `"db"` map a record of category `"A"` at index `0` to
the same path string (`dirpath_from_ft` collapses the empty identifier to
the `db` directory). -/
theorem pathScheme_not_injective :
    pathScheme "A" 0 "" = pathScheme "A" 0 "db" ∧ ("" : String) ≠ "db" :=
  ⟨rfl, by decide⟩

/-- Claim C4 (amended): the path scheme is deterministic (it is a pure
function of the record's category, index and the feature identifier, so
re-deriving it always yields the same string), and it is injective over
`(category, index, feature_identifier)` triples whose categories are
sanitized directory labels (no path separator, no space) and whose feature
identifiers are nonempty and free of the path separator; without these
restrictions it is not injective — the identifiers `""` and `"db"`
collide, as do categories that differ only in a space versus the
directory-name delimiter. -/
theorem pathScheme_injective_on_sanitized
    (c₁ c₂ : String) (i₁ i₂ : Nat) (f₁ f₂ : String)
    (hc₁ : (' ' : Char) ∉ c₁.data ∧ PATH_SEP ∉ c₁.data)
    (hc₂ : (' ' : Char) ∉ c₂.data ∧ PATH_SEP ∉ c₂.data)
    (hf₁ : f₁ ≠ "" ∧ PATH_SEP ∉ f₁.data)
    (hf₂ : f₂ ≠ "" ∧ PATH_SEP ∉ f₂.data)
    (h : pathScheme c₁ i₁ f₁ = pathScheme c₂ i₂ f₂) :
    c₁ = c₂ ∧ i₁ = i₂ ∧ f₁ = f₂ := by
  have hd := congrArg String.data h
  rw [pathScheme_data c₁ i₁ f₁ hc₁.1 hc₁.2 hf₁.1,
    pathScheme_data c₂ i₂ f₂ hc₂.1 hc₂.2 hf₂.1] at hd
  have h1 := List.append_cancel_left hd
  obtain ⟨hfeq, hrest⟩ := append_sep_inj f₁.data f₂.data _ _ hf₁.2 hf₂.2 h1
  obtain ⟨hceq, hname⟩ := append_sep_inj c₁.data c₂.data _ _ hc₁.2 hc₂.2 hrest
  have hsplit : "_0.npy".data = '_' :: "0.npy".data := by decide
  rw [hsplit] at hname
  obtain ⟨hieq, _⟩ := append_sep_inj (natRepr i₁).data (natRepr i₂).data _ _
    (natRepr_no_underscore i₁) (natRepr_no_underscore i₂) hname
  refine ⟨string_data_inj hceq, ?_, string_data_inj hfeq⟩
  exact natRepr_inj (string_data_inj hieq)

/-- Witness for the amended C4 at concrete sanitized inputs. -/
theorem pathScheme_injective_on_sanitized_witness :
    ("B" : String) = "B" ∧ (3 : Nat) = 3 ∧ ("lbp" : String) = "lbp" :=
  pathScheme_injective_on_sanitized "B" "B" 3 3 "lbp" "lbp"
    (by decide) (by decide) (by decide) (by decide) rfl

/-- The per-unit body `Database.fetch_images.save_img` (fetch.py lines
138-162): compute the path (an uncaught path-computation error propagates
out of the unit), short-circuit when the path already exists on disk,
otherwise enter the guarded block — the network call is recorded as a
`netCall` event — and per the oracle's outcome either persist the
normalized image to the path and return it, or swallow the exception and
leave the null sentinel. -/
def save_img (net : Nat → FetchOutcome) (row : Row) (index : Nat) (s : St) :
    Except PyErr (Option String) × St :=
  match img_path_from_row row index none s.fs with
  | (Except.error e, fs1) => (Except.error e, ⟨fs1, s.events⟩)
  | (Except.ok path, fs1) =>
    if path ∈ fs1.files then
      (Except.ok (some path), ⟨fs1, s.events⟩)
    else
      match net index with
      | FetchOutcome.success =>
        (Except.ok (some path),
          ⟨⟨path :: fs1.files, fs1.dirs⟩, s.events ++ [Event.netCall index]⟩)
      | _ => (Except.ok none, ⟨fs1, s.events ++ [Event.netCall index]⟩)

/-- The worker pool of `fetch_images`: every unit is submitted up front and
runs to completion; `order` is the completion order in which the shared
file system sees the units' effects.  Each completed unit's result is
tagged with its submission index (its future). -/
def exec_units_aux (net : Nat → FetchOutcome) (df : List Row) :
    List Nat → List (Nat × Except PyErr (Option String)) × St →
      List (Nat × Except PyErr (Option String)) × St
  | [], acc => acc
  | i :: rest, acc =>
    match df[i]? with
    | none => exec_units_aux net df rest acc
    | some row =>
      let r := save_img net row i acc.2
      exec_units_aux net df rest (acc.1 ++ [(i, r.1)], r.2)

/-- The barrier join plus write-back loop
`for i, ft in enumerate(futures): paths[i] = ft.result()`: results are
read in submission order, each written at its own submission index; the
first stored exception re-raises and aborts the write-back. -/
def write_back_aux (results : List (Nat × Except PyErr (Option String))) :
    Nat → Nat → Except PyErr (List (Option String))
  | _, 0 => Except.ok []
  | i, count + 1 =>
    match (results.lookup i).getD (Except.ok none) with
    | Except.error e => Except.error e
    | Except.ok p =>
      match write_back_aux results (i + 1) count with
      | Except.error e => Except.error e
      | Except.ok ps => Except.ok (p :: ps)

/-- Write-back over all `n` submitted futures, in submission order. -/
def write_back (n : Nat) (results : List (Nat × Except PyErr (Option String))) :
    Except PyErr (List (Option String)) :=
  write_back_aux results 0 n

/-- Modelled from the spec: `FeatureExtractor.create_augmented_df` is not
among the sources (only its call site in `fetch_images` is).  Per the
spec, the augmentation generator is invoked exactly once, after fetch,
over the accepted `local_path` set, per the configured mode; the model
records that single invocation and passes the manifest through. -/
def create_augmented_df (degrees : String) (df : List Row) (s : St) : List Row × St :=
  (df, ⟨s.fs, s.events ++ [Event.augmentCall degrees (df.map Row.path)]⟩)

/-- `Database.fetch_images` (fetch.py lines 128-175): run all fetch units
over the worker pool, join, write results back by submission index into
the `path` column, drop the rows whose result is the null sentinel, invoke
the augmentation generator over the accepted rows, and persist the
manifest to its fixed location. -/
def fetch_images (net : Nat → FetchOutcome) (degrees : String) (order : List Nat)
    (df : List Row) (fs : FS) : Except PyErr (List Row × FS × List Event) :=
  let run := exec_units_aux net df order ([], ⟨fs, []⟩)
  match write_back df.length run.1 with
  | Except.error e => Except.error e
  | Except.ok paths =>
    let dfPaths := (df.zip paths).map fun rp =>
      (⟨rp.1.species, rp.1.col9, rp.1.url, rp.2⟩ : Row)
    let dfKept := dfPaths.filter fun r => r.path.isSome
    let aug := create_augmented_df degrees dfKept run.2
    Except.ok (aug.1, aug.2.fs, aug.2.events ++ [Event.persistCall DATASET_PATH])

/-- The row a unit reads at a submission index (with a dummy default for
out-of-range indices, which do not occur under the pool's submission). -/
def getRow (df : List Row) (i : Nat) : Row := df.getD i ⟨"", "", none, none⟩

/-- The cache path of the unit submitted at index `i`. -/
def rowPathAt (df : List Row) (i : Nat) : String :=
  img_path_str (getRow df i).col9 i none

/-- The specified outcome of one fetch unit, as a pure function of the
initial file system and the network oracle: the record's own path when it
is already cached or retrieval succeeds, the null sentinel otherwise. -/
def predicted (net : Nat → FetchOutcome) (fs : FS) (row : Row) (i : Nat) : Option String :=
  let p := img_path_str row.col9 i none
  if p ∈ fs.files then some p
  else
    match net i with
    | FetchOutcome.success => some p
    | _ => none

/-- The specified result manifest: the surviving submission indices in
original order, each row annotated with the outcome of the unit submitted
at its own index; rows whose unit failed are dropped. -/
def specFetchRows (net : Nat → FetchOutcome) (fs : FS) (df : List Row) : List Row :=
  ((List.range df.length).filter fun i =>
    (predicted net fs (getRow df i) i).isSome).map fun i =>
      (⟨(getRow df i).species, (getRow df i).col9, (getRow df i).url,
        predicted net fs (getRow df i) i⟩ : Row)

theorem getRow_elem (df : List Row) (j : Nat) (h : j < df.length) :
    df[j]? = some (getRow df j) := by
  rw [List.getElem?_eq_getElem h]
  rw [getRow, List.getD_eq_getElem?_getD, List.getElem?_eq_getElem h]
  rfl

theorem getRow_mem (df : List Row) (j : Nat) (h : j < df.length) :
    getRow df j ∈ df := by
  rw [getRow, List.getD_eq_getElem?_getD, List.getElem?_eq_getElem h]
  exact List.getElem_mem h

theorem lookup_map_self {β : Type} (f : Nat → β) :
    ∀ (l : List Nat) (i : Nat), i ∈ l →
      (l.map fun j => (j, f j)).lookup i = some (f i) := by
  intro l
  induction l with
  | nil => intro i h; cases h
  | cons j t ih =>
    intro i h
    by_cases hij : i = j
    · subst hij
      simp [List.lookup]
    · have hmem : i ∈ t := by
        rcases List.mem_cons.mp h with h1 | h1
        · exact absurd h1 hij
        · exact h1
      simp only [List.map_cons, List.lookup]
      have hbeq : (i == j) = false := beq_false_of_ne hij
      rw [hbeq]
      exact ih i hmem

theorem save_img_events (net : Nat → FetchOutcome) (row : Row) (index : Nat) (s : St) :
    (save_img net row index s).2.events = s.events ∨
      (save_img net row index s).2.events = s.events ++ [Event.netCall index] := by
  unfold save_img
  split
  · exact Or.inl rfl
  · split
    · exact Or.inl rfl
    · split
      · exact Or.inr rfl
      · exact Or.inr rfl

theorem exec_units_aux_events (net : Nat → FetchOutcome) (df : List Row) :
    ∀ (order : List Nat) (acc : List (Nat × Except PyErr (Option String)) × St),
      ∀ e ∈ (exec_units_aux net df order acc).2.events,
        e ∈ acc.2.events ∨ ∃ i, e = Event.netCall i := by
  intro order
  induction order with
  | nil => intro acc e he; exact Or.inl he
  | cons i rest ih =>
    intro acc e he
    simp only [exec_units_aux] at he
    cases hdf : df[i]? with
    | none =>
      rw [hdf] at he
      exact ih acc e he
    | some row =>
      rw [hdf] at he
      rcases ih _ e he with h1 | h1
      · rcases save_img_events net row i acc.2 with h2 | h2
        · rw [h2] at h1
          exact Or.inl h1
        · rw [h2] at h1
          rcases List.mem_append.mp h1 with h3 | h3
          · exact Or.inl h3
          · exact Or.inr ⟨i, List.mem_singleton.mp h3⟩
      · exact Or.inr h1

theorem write_back_aux_ok (results : List (Nat × Except PyErr (Option String)))
    (g : Nat → Option String) :
    ∀ (count start : Nat),
      (∀ k, start ≤ k → k < start + count →
        results.lookup k = some (Except.ok (g k))) →
      write_back_aux results start count =
        Except.ok ((List.range' start count).map g) := by
  intro count
  induction count with
  | zero => intro start _; rfl
  | succ c ih =>
    intro start h
    have h0 : results.lookup start = some (Except.ok (g start)) :=
      h start le_rfl (by omega)
    simp only [write_back_aux, h0, Option.getD]
    rw [ih (start + 1) fun k hk1 hk2 => h k (by omega) (by omega)]
    simp [List.range']

theorem write_back_ok (n : Nat) (results : List (Nat × Except PyErr (Option String)))
    (g : Nat → Option String)
    (h : ∀ k, k < n → results.lookup k = some (Except.ok (g k))) :
    write_back n results = Except.ok ((List.range n).map g) := by
  rw [write_back, write_back_aux_ok results g n 0 fun k hk1 hk2 => h k (by omega),
    List.range_eq_range']

theorem save_img_cached (net : Nat → FetchOutcome) (row : Row) (index : Nat) (s : St)
    (u : String) (hu : row.url = some u)
    (hmem : img_path_str row.col9 index none ∈ s.fs.files) :
    ∃ dirs', (save_img net row index s =
      (Except.ok (some (img_path_str row.col9 index none)),
        ⟨⟨s.fs.files, dirs'⟩, s.events⟩)) := by
  unfold save_img img_path_from_row
  rw [hu]
  by_cases hdir : img_dir_str row.species ∈ s.fs.dirs
  · refine ⟨s.fs.dirs, ?_⟩
    simp [hdir, hmem]
  · refine ⟨img_dir_str row.species :: s.fs.dirs, ?_⟩
    simp [hdir, hmem]

theorem save_img_miss_success (net : Nat → FetchOutcome) (row : Row) (index : Nat)
    (s : St) (u : String) (hu : row.url = some u)
    (hmem : img_path_str row.col9 index none ∉ s.fs.files)
    (hnet : net index = FetchOutcome.success) :
    ∃ dirs', (save_img net row index s =
      (Except.ok (some (img_path_str row.col9 index none)),
        ⟨⟨img_path_str row.col9 index none :: s.fs.files, dirs'⟩,
          s.events ++ [Event.netCall index]⟩)) := by
  unfold save_img img_path_from_row
  rw [hu]
  by_cases hdir : img_dir_str row.species ∈ s.fs.dirs
  · refine ⟨s.fs.dirs, ?_⟩
    simp [hdir, hmem, hnet]
  · refine ⟨img_dir_str row.species :: s.fs.dirs, ?_⟩
    simp [hdir, hmem, hnet]

theorem save_img_miss_fail (net : Nat → FetchOutcome) (row : Row) (index : Nat)
    (s : St) (u : String) (hu : row.url = some u)
    (hmem : img_path_str row.col9 index none ∉ s.fs.files)
    (hnet : net index ≠ FetchOutcome.success) :
    ∃ dirs', (save_img net row index s =
      (Except.ok none,
        ⟨⟨s.fs.files, dirs'⟩, s.events ++ [Event.netCall index]⟩)) := by
  unfold save_img img_path_from_row
  rw [hu]
  by_cases hdir : img_dir_str row.species ∈ s.fs.dirs
  · refine ⟨s.fs.dirs, ?_⟩
    cases hn : net index <;> simp_all [hdir, hmem]
  · refine ⟨img_dir_str row.species :: s.fs.dirs, ?_⟩
    cases hn : net index <;> simp_all [hdir, hmem]

theorem exec_units_aux_all_cached (net : Nat → FetchOutcome) (df : List Row)
    (hurl : ∀ r ∈ df, r.url.isSome) :
    ∀ (order : List Nat) (res : List (Nat × Except PyErr (Option String))) (s : St),
      (∀ j ∈ order, j < df.length) →
      (∀ j ∈ order, rowPathAt df j ∈ s.fs.files) →
      ∃ dirs', exec_units_aux net df order (res, s) =
        (res ++ order.map fun j => (j, Except.ok (some (rowPathAt df j))),
          ⟨⟨s.fs.files, dirs'⟩, s.events⟩) := by
  intro order
  induction order with
  | nil =>
    intro res s _ _
    exact ⟨s.fs.dirs, by simp [exec_units_aux]⟩
  | cons j rest ih =>
    intro res s hlt hmem
    have hj : j < df.length := hlt j (List.mem_cons_self j rest)
    obtain ⟨u, hu⟩ := Option.isSome_iff_exists.mp (hurl _ (getRow_mem df j hj))
    obtain ⟨dirs1, hsave⟩ :=
      save_img_cached net (getRow df j) j s u hu (hmem j (List.mem_cons_self j rest))
    obtain ⟨dirs2, hrest⟩ :=
      ih (res ++ [(j, Except.ok (some (rowPathAt df j)))]) ⟨⟨s.fs.files, dirs1⟩, s.events⟩
        (fun k hk => hlt k (List.mem_cons_of_mem j hk))
        (fun k hk => hmem k (List.mem_cons_of_mem j hk))
    refine ⟨dirs2, ?_⟩
    simp only [exec_units_aux, getRow_elem df j hj]
    rw [hsave]
    simpa [List.append_assoc] using hrest

theorem exec_units_aux_success (net : Nat → FetchOutcome) (df : List Row)
    (hurl : ∀ r ∈ df, r.url.isSome) :
    ∀ (order : List Nat) (res : List (Nat × Except PyErr (Option String))) (s : St),
      (∀ j ∈ order, j < df.length) →
      (∀ j ∈ order, net j = FetchOutcome.success) →
      ∃ s' : St,
        exec_units_aux net df order (res, s) =
          (res ++ order.map fun j => (j, Except.ok (some (rowPathAt df j))), s') ∧
        (∀ p, p ∈ s.fs.files → p ∈ s'.fs.files) ∧
        (∀ j ∈ order, rowPathAt df j ∈ s'.fs.files) := by
  intro order
  induction order with
  | nil =>
    intro res s _ _
    exact ⟨s, by simp [exec_units_aux], fun p hp => hp, fun j hj => absurd hj (by simp)⟩
  | cons j rest ih =>
    intro res s hlt hnet
    have hj : j < df.length := hlt j (List.mem_cons_self j rest)
    obtain ⟨u, hu⟩ := Option.isSome_iff_exists.mp (hurl _ (getRow_mem df j hj))
    by_cases hmem : rowPathAt df j ∈ s.fs.files
    · obtain ⟨dirs1, hsave⟩ := save_img_cached net (getRow df j) j s u hu hmem
      obtain ⟨s', hrest, hmono, hpaths⟩ :=
        ih (res ++ [(j, Except.ok (some (rowPathAt df j)))]) ⟨⟨s.fs.files, dirs1⟩, s.events⟩
          (fun k hk => hlt k (List.mem_cons_of_mem j hk))
          (fun k hk => hnet k (List.mem_cons_of_mem j hk))
      refine ⟨s', ?_, fun p hp => hmono p hp, ?_⟩
      · simp only [exec_units_aux, getRow_elem df j hj]
        rw [hsave]
        simpa [List.append_assoc] using hrest
      · intro k hk
        rcases List.mem_cons.mp hk with hk1 | hk1
        · subst hk1
          exact hmono _ hmem
        · exact hpaths k hk1
    · obtain ⟨dirs1, hsave⟩ := save_img_miss_success net (getRow df j) j s u hu hmem
        (hnet j (List.mem_cons_self j rest))
      obtain ⟨s', hrest, hmono, hpaths⟩ :=
        ih (res ++ [(j, Except.ok (some (rowPathAt df j)))])
          ⟨⟨rowPathAt df j :: s.fs.files, dirs1⟩, s.events ++ [Event.netCall j]⟩
          (fun k hk => hlt k (List.mem_cons_of_mem j hk))
          (fun k hk => hnet k (List.mem_cons_of_mem j hk))
      refine ⟨s', ?_, ?_, ?_⟩
      · simp only [exec_units_aux, getRow_elem df j hj]
        rw [hsave]
        simpa [List.append_assoc] using hrest
      · intro p hp
        exact hmono p (List.mem_cons_of_mem _ hp)
      · intro k hk
        rcases List.mem_cons.mp hk with hk1 | hk1
        · subst hk1
          exact hmono _ (List.mem_cons_self _ _)
        · exact hpaths k hk1

theorem predicted_cached {net : Nat → FetchOutcome} {fs : FS} {row : Row} {i : Nat}
    (h : img_path_str row.col9 i none ∈ fs.files) :
    predicted net fs row i = some (img_path_str row.col9 i none) := by
  simp [predicted, h]

theorem predicted_miss_success {net : Nat → FetchOutcome} {fs : FS} {row : Row}
    {i : Nat} (h : img_path_str row.col9 i none ∉ fs.files)
    (hn : net i = FetchOutcome.success) :
    predicted net fs row i = some (img_path_str row.col9 i none) := by
  simp [predicted, h, hn]

theorem predicted_miss_fail {net : Nat → FetchOutcome} {fs : FS} {row : Row}
    {i : Nat} (h : img_path_str row.col9 i none ∉ fs.files)
    (hn : net i ≠ FetchOutcome.success) :
    predicted net fs row i = none := by
  cases hni : net i
  · exact absurd hni hn
  all_goals simp [predicted, h, hni]

theorem exec_units_aux_char (net : Nat → FetchOutcome) (df : List Row) (fs0 : FS)
    (hurl : ∀ r ∈ df, r.url.isSome)
    (hdist : ∀ j k, j < df.length → k < df.length → j ≠ k →
      rowPathAt df j ≠ rowPathAt df k) :
    ∀ (rest done : List Nat) (s : St)
      (res : List (Nat × Except PyErr (Option String))),
      (∀ j ∈ rest, j < df.length) →
      (∀ j ∈ done, j < df.length) →
      (done ++ rest).Nodup →
      (∀ p, p ∈ s.fs.files ↔ p ∈ fs0.files ∨
        ∃ j ∈ done, net j = FetchOutcome.success ∧ rowPathAt df j = p) →
      (∀ e ∈ s.events, ∃ j ∈ done,
        e = Event.netCall j ∧ rowPathAt df j ∉ fs0.files) →
      ∃ s' : St,
        exec_units_aux net df rest (res, s) =
          (res ++ rest.map fun j =>
            (j, Except.ok (predicted net fs0 (getRow df j) j)), s') ∧
        (∀ p, p ∈ s'.fs.files ↔ p ∈ fs0.files ∨
          ∃ j ∈ done ++ rest, net j = FetchOutcome.success ∧ rowPathAt df j = p) ∧
        (∀ e ∈ s'.events, ∃ j ∈ done ++ rest,
          e = Event.netCall j ∧ rowPathAt df j ∉ fs0.files) := by
  intro rest
  induction rest with
  | nil =>
    intro done s res _ _ _ hfiles hevents
    exact ⟨s, by simp [exec_units_aux], by simpa using hfiles, by simpa using hevents⟩
  | cons j rest ih =>
    intro done s res hrest hdone hnodup hfiles hevents
    have hj : j < df.length := hrest j (List.mem_cons_self j rest)
    obtain ⟨u, hu⟩ := Option.isSome_iff_exists.mp (hurl _ (getRow_mem df j hj))
    have hjnotdone : j ∉ done := by
      intro hmem
      rcases List.nodup_append.mp hnodup with ⟨_, _, hdisj⟩
      exact hdisj hmem (List.mem_cons_self j rest)
    -- the on-disk check of unit j is equivalent to the check against the
    -- initial file system: no other unit writes unit j's path
    have hcheck : (rowPathAt df j ∈ s.fs.files) ↔ rowPathAt df j ∈ fs0.files := by
      constructor
      · intro hmem
        rcases (hfiles _).mp hmem with h1 | ⟨k, hk, _, hkp⟩
        · exact h1
        · exact absurd hkp (hdist k j (hdone k hk) hj fun he => hjnotdone (he ▸ hk))
      · intro hmem
        exact (hfiles _).mpr (Or.inl hmem)
    have hassoc : done ++ j :: rest = (done ++ [j]) ++ rest := by
      simp [List.append_assoc]
    have hnodup' : ((done ++ [j]) ++ rest).Nodup := by
      rw [← hassoc]
      exact hnodup
    have hdone' : ∀ k ∈ done ++ [j], k < df.length := by
      intro k hk
      rcases List.mem_append.mp hk with h1 | h1
      · exact hdone k h1
      · rw [List.mem_singleton.mp h1]
        exact hj
    have hrest' : ∀ k ∈ rest, k < df.length :=
      fun k hk => hrest k (List.mem_cons_of_mem j hk)
    by_cases hmem : rowPathAt df j ∈ fs0.files
    · -- already cached: the unit short-circuits
      have hpred : predicted net fs0 (getRow df j) j =
          some (img_path_str (getRow df j).col9 j none) := predicted_cached hmem
      obtain ⟨dirs1, hsave⟩ :=
        save_img_cached net (getRow df j) j s u hu (hcheck.mpr hmem)
      have hfiles' : ∀ p, p ∈ (⟨⟨s.fs.files, dirs1⟩, s.events⟩ : St).fs.files ↔
          p ∈ fs0.files ∨ ∃ k ∈ done ++ [j],
            net k = FetchOutcome.success ∧ rowPathAt df k = p := by
        intro p
        constructor
        · intro hp
          rcases (hfiles p).mp hp with h1 | ⟨k, hk, hks, hkp⟩
          · exact Or.inl h1
          · exact Or.inr ⟨k, List.mem_append_left _ hk, hks, hkp⟩
        · intro hp
          rcases hp with h1 | ⟨k, hk, hks, hkp⟩
          · exact (hfiles p).mpr (Or.inl h1)
          · rcases List.mem_append.mp hk with h2 | h2
            · exact (hfiles p).mpr (Or.inr ⟨k, h2, hks, hkp⟩)
            · rw [List.mem_singleton.mp h2] at hkp
              subst hkp
              exact hcheck.mpr hmem
      obtain ⟨s', hrun, hf, he⟩ :=
        ih (done ++ [j]) ⟨⟨s.fs.files, dirs1⟩, s.events⟩
          (res ++ [(j, Except.ok (some (img_path_str (getRow df j).col9 j none)))])
          hrest' hdone' hnodup' hfiles'
          (fun e hev => by
            obtain ⟨k, hk, hke⟩ := hevents e hev
            exact ⟨k, List.mem_append_left _ hk, hke⟩)
      refine ⟨s', ?_, fun p => by rw [hf p, hassoc], ?_⟩
      · simp only [exec_units_aux, getRow_elem df j hj, List.map_cons, hpred]
        rw [hsave]
        simpa [List.append_assoc] using hrun
      · intro e hev
        obtain ⟨k, hk, hke⟩ := he e hev
        exact ⟨k, by rw [hassoc]; exact hk, hke⟩
    · -- not cached: the unit enters the guarded block
      have hmemS : img_path_str (getRow df j).col9 j none ∉ s.fs.files :=
        fun hc => hmem (hcheck.mp hc)
      by_cases hn : net j = FetchOutcome.success
      · -- retrieval succeeds: persist and return the path
        have hpred : predicted net fs0 (getRow df j) j =
            some (img_path_str (getRow df j).col9 j none) :=
          predicted_miss_success hmem hn
        obtain ⟨dirs1, hsave⟩ :=
          save_img_miss_success net (getRow df j) j s u hu hmemS hn
        have hfiles' : ∀ p, p ∈ (⟨⟨rowPathAt df j :: s.fs.files, dirs1⟩,
            s.events ++ [Event.netCall j]⟩ : St).fs.files ↔
            p ∈ fs0.files ∨ ∃ k ∈ done ++ [j],
              net k = FetchOutcome.success ∧ rowPathAt df k = p := by
          intro p
          constructor
          · intro hp
            rcases List.mem_cons.mp hp with h1 | h1
            · exact Or.inr ⟨j, List.mem_append_right _ (List.mem_singleton.mpr rfl),
                hn, h1.symm⟩
            · rcases (hfiles p).mp h1 with h2 | ⟨k, hk, hks, hkp⟩
              · exact Or.inl h2
              · exact Or.inr ⟨k, List.mem_append_left _ hk, hks, hkp⟩
          · intro hp
            rcases hp with h1 | ⟨k, hk, hks, hkp⟩
            · exact List.mem_cons_of_mem _ ((hfiles p).mpr (Or.inl h1))
            · rcases List.mem_append.mp hk with h2 | h2
              · exact List.mem_cons_of_mem _ ((hfiles p).mpr (Or.inr ⟨k, h2, hks, hkp⟩))
              · rw [List.mem_singleton.mp h2] at hkp
                rw [← hkp]
                exact List.mem_cons_self _ _
        obtain ⟨s', hrun, hf, he⟩ :=
          ih (done ++ [j]) ⟨⟨rowPathAt df j :: s.fs.files, dirs1⟩,
              s.events ++ [Event.netCall j]⟩
            (res ++ [(j, Except.ok (some (img_path_str (getRow df j).col9 j none)))])
            hrest' hdone' hnodup' hfiles'
            (fun e hev => by
              rcases List.mem_append.mp hev with h1 | h1
              · obtain ⟨k, hk, hke⟩ := hevents e h1
                exact ⟨k, List.mem_append_left _ hk, hke⟩
              · exact ⟨j, List.mem_append_right _ (List.mem_singleton.mpr rfl),
                  List.mem_singleton.mp h1, hmem⟩)
        refine ⟨s', ?_, fun p => by rw [hf p, hassoc], ?_⟩
        · simp only [exec_units_aux, getRow_elem df j hj, List.map_cons, hpred]
          rw [hsave]
          simpa [List.append_assoc] using hrun
        · intro e hev
          obtain ⟨k, hk, hke⟩ := he e hev
          exact ⟨k, by rw [hassoc]; exact hk, hke⟩
      · -- retrieval fails: the exception is swallowed, the sentinel remains
        have hpred : predicted net fs0 (getRow df j) j = none :=
          predicted_miss_fail hmem hn
        obtain ⟨dirs1, hsave⟩ :=
          save_img_miss_fail net (getRow df j) j s u hu hmemS hn
        have hfiles' : ∀ p, p ∈ (⟨⟨s.fs.files, dirs1⟩,
            s.events ++ [Event.netCall j]⟩ : St).fs.files ↔
            p ∈ fs0.files ∨ ∃ k ∈ done ++ [j],
              net k = FetchOutcome.success ∧ rowPathAt df k = p := by
          intro p
          constructor
          · intro hp
            rcases (hfiles p).mp hp with h1 | ⟨k, hk, hks, hkp⟩
            · exact Or.inl h1
            · exact Or.inr ⟨k, List.mem_append_left _ hk, hks, hkp⟩
          · intro hp
            rcases hp with h1 | ⟨k, hk, hks, hkp⟩
            · exact (hfiles p).mpr (Or.inl h1)
            · rcases List.mem_append.mp hk with h2 | h2
              · exact (hfiles p).mpr (Or.inr ⟨k, h2, hks, hkp⟩)
              · rw [List.mem_singleton.mp h2] at hks
                exact absurd hks hn
        obtain ⟨s', hrun, hf, he⟩ :=
          ih (done ++ [j]) ⟨⟨s.fs.files, dirs1⟩, s.events ++ [Event.netCall j]⟩
            (res ++ [(j, Except.ok none)])
            hrest' hdone' hnodup' hfiles'
            (fun e hev => by
              rcases List.mem_append.mp hev with h1 | h1
              · obtain ⟨k, hk, hke⟩ := hevents e h1
                exact ⟨k, List.mem_append_left _ hk, hke⟩
              · exact ⟨j, List.mem_append_right _ (List.mem_singleton.mpr rfl),
                  List.mem_singleton.mp h1, hmem⟩)
        refine ⟨s', ?_, fun p => by rw [hf p, hassoc], ?_⟩
        · simp only [exec_units_aux, getRow_elem df j hj, List.map_cons, hpred]
          rw [hsave]
          simpa [List.append_assoc] using hrun
        · intro e hev
          obtain ⟨k, hk, hke⟩ := he e hev
          exact ⟨k, by rw [hassoc]; exact hk, hke⟩
theorem predicted_some {net : Nat → FetchOutcome} {fs : FS} {row : Row} {i : Nat}
    {p : String} (h : predicted net fs row i = some p) :
    p = img_path_str row.col9 i none ∧
      (img_path_str row.col9 i none ∈ fs.files ∨ net i = FetchOutcome.success) := by
  by_cases hm : img_path_str row.col9 i none ∈ fs.files
  · rw [predicted_cached hm] at h
    exact ⟨(Option.some_inj.mp h).symm, Or.inl hm⟩
  · by_cases hn : net i = FetchOutcome.success
    · rw [predicted_miss_success hm hn] at h
      exact ⟨(Option.some_inj.mp h).symm, Or.inr hn⟩
    · rw [predicted_miss_fail hm hn] at h
      cases h

theorem zip_range_map (df : List Row) (g : Nat → Option String) :
    df.zip ((List.range df.length).map g) =
      (List.range df.length).map fun i => (getRow df i, g i) := by
  apply List.ext_getElem
  · simp
  · intro i h1 h2
    have hi : i < df.length := by
      simpa using h2
    simp only [List.getElem_zip, List.getElem_map, List.getElem_range]
    have hrow : df[i] = getRow df i := by
      rw [getRow, List.getD_eq_getElem?_getD, List.getElem?_eq_getElem hi]
      rfl
    rw [hrow]

theorem fetch_rows_spec (df : List Row) (g : Nat → Option String) :
    ((df.zip ((List.range df.length).map g)).map fun rp =>
        (⟨rp.1.species, rp.1.col9, rp.1.url, rp.2⟩ : Row)).filter
      (fun r => r.path.isSome) =
    ((List.range df.length).filter fun i => (g i).isSome).map fun i =>
      (⟨(getRow df i).species, (getRow df i).col9, (getRow df i).url, g i⟩ : Row) := by
  rw [zip_range_map, List.map_map, List.filter_map]
  have hq : (List.range df.length).filter
      ((fun r : Row => r.path.isSome) ∘
        ((fun rp : Row × Option String =>
          (⟨rp.1.species, rp.1.col9, rp.1.url, rp.2⟩ : Row)) ∘
          fun i => (getRow df i, g i))) =
      (List.range df.length).filter fun i => (g i).isSome :=
    List.filter_congr fun i _ => rfl
  rw [hq]
  exact List.map_congr_left fun i _ => rfl

theorem fetch_images_ok (net : Nat → FetchOutcome) (degrees : String)
    (order : List Nat) (df : List Row) (fs : FS)
    (hurl : ∀ r ∈ df, r.url.isSome)
    (hperm : order.Perm (List.range df.length))
    (hdist : ∀ j k, j < df.length → k < df.length → j ≠ k →
      rowPathAt df j ≠ rowPathAt df k) :
    ∃ s' : St,
      fetch_images net degrees order df fs =
        Except.ok (specFetchRows net fs df, s'.fs,
          s'.events ++ [Event.augmentCall degrees
            ((specFetchRows net fs df).map Row.path),
            Event.persistCall DATASET_PATH]) ∧
      (∀ p, p ∈ s'.fs.files ↔ p ∈ fs.files ∨
        ∃ j, j < df.length ∧ net j = FetchOutcome.success ∧ rowPathAt df j = p) ∧
      (∀ e ∈ s'.events, ∃ j, e = Event.netCall j) := by
  have hmemorder : ∀ j, j ∈ order ↔ j < df.length := by
    intro j
    rw [hperm.mem_iff, List.mem_range]
  have hltorder : ∀ j ∈ order, j < df.length := fun j hj => (hmemorder j).mp hj
  have hnodup : (([] : List Nat) ++ order).Nodup := by
    simpa using hperm.nodup_iff.mpr (List.nodup_range df.length)
  obtain ⟨s', hrun, hf, he⟩ :=
    exec_units_aux_char net df fs hurl hdist order [] ⟨fs, []⟩ []
      hltorder (by simp) hnodup (by simp) (by simp)
  have hlookup : ∀ k, k < df.length →
      (exec_units_aux net df order ([], (⟨fs, []⟩ : St))).1.lookup k =
        some (Except.ok (predicted net fs (getRow df k) k)) := by
    intro k hk
    rw [hrun]
    simpa using lookup_map_self
      (fun j => Except.ok (predicted net fs (getRow df j) j)) order k
      ((hmemorder k).mpr hk)
  have hwb : write_back df.length
      (exec_units_aux net df order ([], (⟨fs, []⟩ : St))).1 =
      Except.ok ((List.range df.length).map
        fun i => predicted net fs (getRow df i) i) :=
    write_back_ok df.length _ _ hlookup
  refine ⟨s', ?_, ?_, ?_⟩
  · simp only [fetch_images]
    rw [hwb]
    simp only [create_augmented_df]
    rw [fetch_rows_spec df fun i => predicted net fs (getRow df i) i]
    have hsst : (exec_units_aux net df order ([], (⟨fs, []⟩ : St))).2 = s' := by
      rw [hrun]
    rw [hsst]
    rw [specFetchRows]
    simp [List.append_assoc]
  · intro p
    rw [hf p]
    constructor
    · intro h1
      rcases h1 with h1 | ⟨j, hj, hjs⟩
      · exact Or.inl h1
      · exact Or.inr ⟨j, hltorder j (by simpa using hj), hjs⟩
    · intro h1
      rcases h1 with h1 | ⟨j, hj, hjs⟩
      · exact Or.inl h1
      · exact Or.inr ⟨j, by simpa using (hmemorder j).mpr hj, hjs⟩
  · intro e hev
    obtain ⟨j, _, hje, _⟩ := he e hev
    exact ⟨j, hje⟩

/-- The manifest produced by a fetch pass in which every unit returns its
own path: every row survives, annotated with its cache path. -/
def allCachedRows (df : List Row) : List Row :=
  ((List.range df.length).filter fun i => (some (rowPathAt df i)).isSome).map fun i =>
    (⟨(getRow df i).species, (getRow df i).col9, (getRow df i).url,
      some (rowPathAt df i)⟩ : Row)

/-- Claim C1: fetch is idempotent via the on-disk short-circuit.  First
conjunct: a fetch unit whose computed path already exists on disk performs
no network call (its event trace is unchanged) and returns that path,
leaving the files unchanged.  Second conjunct: with the network always
succeeding, running the fetch pass a second time on the same input (all
paths now existing) produces the identical manifest — in particular
identical `local_path` values — and performs zero network calls. -/
theorem fetch_idempotent (net : Nat → FetchOutcome) (degrees : String)
    (order1 order2 : List Nat) (df : List Row) (fs : FS)
    (hurl : ∀ r ∈ df, r.url.isSome)
    (hnet : ∀ i, net i = FetchOutcome.success)
    (hperm1 : order1.Perm (List.range df.length))
    (hperm2 : order2.Perm (List.range df.length)) :
    (∀ (row : Row) (i : Nat) (s : St) (u : String), row.url = some u →
      img_path_str row.col9 i none ∈ s.fs.files →
      ∃ dirs', save_img net row i s =
        (Except.ok (some (img_path_str row.col9 i none)),
          ⟨⟨s.fs.files, dirs'⟩, s.events⟩)) ∧
    ∃ rows fs1 ev1 fs2 ev2,
      fetch_images net degrees order1 df fs = Except.ok (rows, fs1, ev1) ∧
      fetch_images net degrees order2 df fs1 = Except.ok (rows, fs2, ev2) ∧
      ∀ i, Event.netCall i ∉ ev2 := by
  constructor
  · intro row i s u hu hmem
    exact save_img_cached net row i s u hu hmem
  have hlt1 : ∀ j ∈ order1, j < df.length := by
    intro j hj
    have := hperm1.mem_iff.mp hj
    simpa using this
  have hlt2 : ∀ j ∈ order2, j < df.length := by
    intro j hj
    have := hperm2.mem_iff.mp hj
    simpa using this
  obtain ⟨s1, hrun1, hmono1, hpaths1⟩ :=
    exec_units_aux_success net df hurl order1 [] ⟨fs, []⟩ hlt1 fun j _ => hnet j
  have hres1 : (exec_units_aux net df order1 ([], (⟨fs, []⟩ : St))).1 =
      order1.map fun j => (j, Except.ok (some (rowPathAt df j))) := by
    rw [hrun1]
    simp
  have hlookup1 : ∀ k, k < df.length →
      (exec_units_aux net df order1 ([], (⟨fs, []⟩ : St))).1.lookup k =
        some (Except.ok (some (rowPathAt df k))) := by
    intro k hk
    rw [hres1]
    exact lookup_map_self (fun j => Except.ok (some (rowPathAt df j))) order1 k
      (hperm1.mem_iff.mpr (List.mem_range.mpr hk))
  have hwb1 : write_back df.length
      (exec_units_aux net df order1 ([], (⟨fs, []⟩ : St))).1 =
      Except.ok ((List.range df.length).map fun i => some (rowPathAt df i)) :=
    write_back_ok df.length _ _ hlookup1
  have hcov1 : ∀ j, j < df.length → rowPathAt df j ∈ s1.fs.files := by
    intro j hj
    exact hpaths1 j (hperm1.mem_iff.mpr (List.mem_range.mpr hj))
  obtain ⟨dirs2, hrun2⟩ :=
    exec_units_aux_all_cached net df hurl order2 [] ⟨s1.fs, []⟩ hlt2
      fun j hj => hcov1 j (hlt2 j hj)
  have hres2 : (exec_units_aux net df order2 ([], (⟨s1.fs, []⟩ : St))).1 =
      order2.map fun j => (j, Except.ok (some (rowPathAt df j))) := by
    rw [hrun2]
    simp
  have hlookup2 : ∀ k, k < df.length →
      (exec_units_aux net df order2 ([], (⟨s1.fs, []⟩ : St))).1.lookup k =
        some (Except.ok (some (rowPathAt df k))) := by
    intro k hk
    rw [hres2]
    exact lookup_map_self (fun j => Except.ok (some (rowPathAt df j))) order2 k
      (hperm2.mem_iff.mpr (List.mem_range.mpr hk))
  have hwb2 : write_back df.length
      (exec_units_aux net df order2 ([], (⟨s1.fs, []⟩ : St))).1 =
      Except.ok ((List.range df.length).map fun i => some (rowPathAt df i)) :=
    write_back_ok df.length _ _ hlookup2
  refine ⟨allCachedRows df, s1.fs,
    s1.events ++ [Event.augmentCall degrees ((allCachedRows df).map Row.path),
      Event.persistCall DATASET_PATH],
    ⟨s1.fs.files, dirs2⟩,
    [Event.augmentCall degrees ((allCachedRows df).map Row.path),
      Event.persistCall DATASET_PATH],
    ?_, ?_, ?_⟩
  · simp only [fetch_images]
    rw [hwb1]
    simp only [create_augmented_df]
    rw [fetch_rows_spec df fun i => some (rowPathAt df i)]
    have hsst : (exec_units_aux net df order1 ([], (⟨fs, []⟩ : St))).2 = s1 := by
      rw [hrun1]
    rw [hsst]
    simp [allCachedRows, List.append_assoc]
  · simp only [fetch_images]
    rw [hwb2]
    simp only [create_augmented_df]
    rw [fetch_rows_spec df fun i => some (rowPathAt df i)]
    have hsst : (exec_units_aux net df order2 ([], (⟨s1.fs, []⟩ : St))).2 =
        ⟨⟨s1.fs.files, dirs2⟩, []⟩ := by
      rw [hrun2]
    rw [hsst]
    simp [allCachedRows, List.append_assoc]
  · intro i hi
    simp at hi

/-- Witness for C1 at a concrete two-record input: the second pass over the
identity and the reversed completion orders. -/
theorem fetch_idempotent_witness :
    (∀ (row : Row) (i : Nat) (s : St) (u : String), row.url = some u →
      img_path_str row.col9 i none ∈ s.fs.files →
      ∃ dirs', save_img (fun _ => FetchOutcome.success) row i s =
        (Except.ok (some (img_path_str row.col9 i none)),
          ⟨⟨s.fs.files, dirs'⟩, s.events⟩)) ∧
    ∃ rows fs1 ev1 fs2 ev2,
      fetch_images (fun _ => FetchOutcome.success) "all" [0, 1]
        [⟨"A", "A", some "u.jpg", none⟩, ⟨"B", "B", some "v.jpg", none⟩] ⟨[], []⟩ =
        Except.ok (rows, fs1, ev1) ∧
      fetch_images (fun _ => FetchOutcome.success) "all" [1, 0]
        [⟨"A", "A", some "u.jpg", none⟩, ⟨"B", "B", some "v.jpg", none⟩] fs1 =
        Except.ok (rows, fs2, ev2) ∧
      ∀ i, Event.netCall i ∉ ev2 :=
  fetch_idempotent (fun _ => FetchOutcome.success) "all" [0, 1] [1, 0]
    [⟨"A", "A", some "u.jpg", none⟩, ⟨"B", "B", some "v.jpg", none⟩] ⟨[], []⟩
    (by decide) (fun _ => rfl) (by decide) (by decide)

/-- Claim C2 counterexample: a fetch unit whose record has a missing
(non-string) source reference raises `AttributeError` while computing its
path, before the guarded block; the exception is not caught inside the
unit, re-raises at the barrier's `ft.result()`, and aborts the whole batch
instead of degrading only that record — `fetch_images` raises instead of
completing. -/
theorem fetch_unit_exception_aborts_batch :
    fetch_images (fun _ => FetchOutcome.success) "all" [0]
      [⟨"A", "A", none, none⟩] ⟨[], []⟩ = Except.error PyErr.attrError := rfl

/-- Claim C2 (amended): exceptions raised inside the guarded
download/normalize/persist block of a fetch unit (timeout, network error,
invalid reference, persist error, or any other) degrade exactly that one
record to the null sentinel and the batch completes, the failed records
are dropped before augmentation, the survivors keep their original
relative order, and the persisted manifest lists only paths that exist on
disk — provided every record's source reference is present (a missing,
non-string reference raises while computing the unit's path, outside the
guarded block, and aborts the whole batch) and the records' computed cache
paths are pairwise distinct. -/
theorem fetch_partial_failure_isolated (net : Nat → FetchOutcome) (degrees : String)
    (order : List Nat) (df : List Row) (fs : FS)
    (hurl : ∀ r ∈ df, r.url.isSome)
    (hperm : order.Perm (List.range df.length))
    (hdist : ∀ j k, j < df.length → k < df.length → j ≠ k →
      rowPathAt df j ≠ rowPathAt df k) :
    ∃ rows fs' ev,
      fetch_images net degrees order df fs = Except.ok (rows, fs', ev) ∧
      rows = specFetchRows net fs df ∧
      ∀ r ∈ rows, ∃ p, r.path = some p ∧ p ∈ fs'.files := by
  obtain ⟨s', hrun, hf, _⟩ := fetch_images_ok net degrees order df fs hurl hperm hdist
  refine ⟨specFetchRows net fs df, s'.fs, _, hrun, rfl, ?_⟩
  intro r hr
  simp only [specFetchRows, List.mem_map, List.mem_filter, List.mem_range] at hr
  obtain ⟨i, ⟨hir, his⟩, hrEq⟩ := hr
  obtain ⟨p, hp⟩ := Option.isSome_iff_exists.mp his
  refine ⟨p, ?_, ?_⟩
  · rw [← hrEq]
    exact hp
  · obtain ⟨hpeq, hcase⟩ := predicted_some hp
    rcases hcase with hc | hc
    · exact (hf p).mpr (Or.inl (hpeq ▸ hc))
    · exact (hf p).mpr (Or.inr ⟨i, hir, hc, hpeq.symm⟩)

/-- Witness for the amended C2: the spec's ten-unit scenario — unit 5
times out, the others succeed; the batch completes and the result is the
specified nine-record manifest. -/
theorem fetch_partial_failure_isolated_witness :
    ∃ rows fs' ev,
      fetch_images (fun i => if i = 5 then FetchOutcome.timeout else FetchOutcome.success)
        "all" (List.range 10).reverse
        [⟨"A", "A", some "u0.jpg", none⟩, ⟨"A", "A", some "u1.jpg", none⟩,
         ⟨"A", "A", some "u2.jpg", none⟩, ⟨"A", "A", some "u3.jpg", none⟩,
         ⟨"A", "A", some "u4.jpg", none⟩, ⟨"A", "A", some "u5.jpg", none⟩,
         ⟨"A", "A", some "u6.jpg", none⟩, ⟨"A", "A", some "u7.jpg", none⟩,
         ⟨"A", "A", some "u8.jpg", none⟩, ⟨"A", "A", some "u9.jpg", none⟩]
        ⟨[], []⟩ = Except.ok (rows, fs', ev) ∧
      rows = specFetchRows
        (fun i => if i = 5 then FetchOutcome.timeout else FetchOutcome.success)
        ⟨[], []⟩
        [⟨"A", "A", some "u0.jpg", none⟩, ⟨"A", "A", some "u1.jpg", none⟩,
         ⟨"A", "A", some "u2.jpg", none⟩, ⟨"A", "A", some "u3.jpg", none⟩,
         ⟨"A", "A", some "u4.jpg", none⟩, ⟨"A", "A", some "u5.jpg", none⟩,
         ⟨"A", "A", some "u6.jpg", none⟩, ⟨"A", "A", some "u7.jpg", none⟩,
         ⟨"A", "A", some "u8.jpg", none⟩, ⟨"A", "A", some "u9.jpg", none⟩] ∧
      ∀ r ∈ rows, ∃ p, r.path = some p ∧ p ∈ fs'.files :=
  fetch_partial_failure_isolated
    (fun i => if i = 5 then FetchOutcome.timeout else FetchOutcome.success)
    "all" (List.range 10).reverse _ ⟨[], []⟩ (by decide)
    (by simp)
    (by
      have h : ∀ j, j < 10 → ∀ k, k < 10 → j ≠ k →
          rowPathAt
            [(⟨"A", "A", some "u0.jpg", none⟩ : Row), ⟨"A", "A", some "u1.jpg", none⟩,
             ⟨"A", "A", some "u2.jpg", none⟩, ⟨"A", "A", some "u3.jpg", none⟩,
             ⟨"A", "A", some "u4.jpg", none⟩, ⟨"A", "A", some "u5.jpg", none⟩,
             ⟨"A", "A", some "u6.jpg", none⟩, ⟨"A", "A", some "u7.jpg", none⟩,
             ⟨"A", "A", some "u8.jpg", none⟩, ⟨"A", "A", some "u9.jpg", none⟩] j ≠
          rowPathAt
            [(⟨"A", "A", some "u0.jpg", none⟩ : Row), ⟨"A", "A", some "u1.jpg", none⟩,
             ⟨"A", "A", some "u2.jpg", none⟩, ⟨"A", "A", some "u3.jpg", none⟩,
             ⟨"A", "A", some "u4.jpg", none⟩, ⟨"A", "A", some "u5.jpg", none⟩,
             ⟨"A", "A", some "u6.jpg", none⟩, ⟨"A", "A", some "u7.jpg", none⟩,
             ⟨"A", "A", some "u8.jpg", none⟩, ⟨"A", "A", some "u9.jpg", none⟩] k := by
        decide
      intro j k hj hk hne
      exact h j (by simpa using hj) k (by simpa using hk) hne)

/-- Claim C3: results are written back at the submission index, so the
row-to-result correspondence and the original row order are preserved
regardless of the order in which workers complete: two runs under any two
completion orders produce the same manifest, and that manifest is the
index-correlated, order-preserving specification `specFetchRows`. -/
theorem fetch_writeback_by_submission_index (net : Nat → FetchOutcome)
    (degrees : String) (order1 order2 : List Nat) (df : List Row) (fs : FS)
    (hurl : ∀ r ∈ df, r.url.isSome)
    (hperm1 : order1.Perm (List.range df.length))
    (hperm2 : order2.Perm (List.range df.length))
    (hdist : ∀ j k, j < df.length → k < df.length → j ≠ k →
      rowPathAt df j ≠ rowPathAt df k) :
    ∃ fs1 ev1 fs2 ev2,
      fetch_images net degrees order1 df fs =
        Except.ok (specFetchRows net fs df, fs1, ev1) ∧
      fetch_images net degrees order2 df fs =
        Except.ok (specFetchRows net fs df, fs2, ev2) := by
  obtain ⟨s1, h1, _, _⟩ := fetch_images_ok net degrees order1 df fs hurl hperm1 hdist
  obtain ⟨s2, h2, _, _⟩ := fetch_images_ok net degrees order2 df fs hurl hperm2 hdist
  exact ⟨s1.fs, _, s2.fs, _, h1, h2⟩

/-- Witness for C3: a two-record input with one failing unit, run under
the identity and the reversed completion orders. -/
theorem fetch_writeback_by_submission_index_witness :
    ∃ fs1 ev1 fs2 ev2,
      fetch_images (fun i => if i = 0 then FetchOutcome.reqError else FetchOutcome.success)
        "rotate" [0, 1]
        [⟨"A", "A", some "u.jpg", none⟩, ⟨"B", "B", some "v.jpg", none⟩] ⟨[], []⟩ =
        Except.ok (specFetchRows
          (fun i => if i = 0 then FetchOutcome.reqError else FetchOutcome.success)
          ⟨[], []⟩
          [⟨"A", "A", some "u.jpg", none⟩, ⟨"B", "B", some "v.jpg", none⟩], fs1, ev1) ∧
      fetch_images (fun i => if i = 0 then FetchOutcome.reqError else FetchOutcome.success)
        "rotate" [1, 0]
        [⟨"A", "A", some "u.jpg", none⟩, ⟨"B", "B", some "v.jpg", none⟩] ⟨[], []⟩ =
        Except.ok (specFetchRows
          (fun i => if i = 0 then FetchOutcome.reqError else FetchOutcome.success)
          ⟨[], []⟩
          [⟨"A", "A", some "u.jpg", none⟩, ⟨"B", "B", some "v.jpg", none⟩], fs2, ev2) :=
  fetch_writeback_by_submission_index
    (fun i => if i = 0 then FetchOutcome.reqError else FetchOutcome.success)
    "rotate" [0, 1] [1, 0]
    [⟨"A", "A", some "u.jpg", none⟩, ⟨"B", "B", some "v.jpg", none⟩] ⟨[], []⟩
    (by decide) (by decide) (by decide)
    (by
      intro j k hj hk hne
      have h : ∀ j, j < 2 → ∀ k, k < 2 → j ≠ k →
          rowPathAt [(⟨"A", "A", some "u.jpg", none⟩ : Row),
            ⟨"B", "B", some "v.jpg", none⟩] j ≠
          rowPathAt [(⟨"A", "A", some "u.jpg", none⟩ : Row),
            ⟨"B", "B", some "v.jpg", none⟩] k := by
        decide
      exact h j (by simpa using hj) k (by simpa using hk) hne)

/-- Claim C7: whenever the fetch pass completes, the augmentation
generator has been invoked exactly once — after the barrier and the drop
of failed rows, over the accepted rows' local paths and the configured
mode — and the manifest persist to its fixed location follows it; every
earlier event is a network call of some fetch unit. -/
theorem augmentation_invoked_once_then_persisted (net : Nat → FetchOutcome)
    (degrees : String) (order : List Nat) (df : List Row) (fs : FS)
    (rows : List Row) (fs' : FS) (ev : List Event)
    (h : fetch_images net degrees order df fs = Except.ok (rows, fs', ev)) :
    ∃ pre, ev = pre ++ [Event.augmentCall degrees (rows.map Row.path),
        Event.persistCall DATASET_PATH] ∧
      ∀ e ∈ pre, ∃ i, e = Event.netCall i := by
  simp only [fetch_images] at h
  cases hw : write_back df.length
      (exec_units_aux net df order ([], (⟨fs, []⟩ : St))).1 with
  | error e =>
    rw [hw] at h
    cases h
  | ok paths =>
    rw [hw] at h
    simp only [create_augmented_df, Except.ok.injEq, Prod.mk.injEq] at h
    obtain ⟨h1, _, h3⟩ := h
    refine ⟨(exec_units_aux net df order ([], (⟨fs, []⟩ : St))).2.events, ?_, ?_⟩
    · rw [← h3, ← h1]
      simp [List.append_assoc]
    · intro e hev
      rcases exec_units_aux_events net df order ([], ⟨fs, []⟩) e hev with h4 | h4
      · cases h4
      · exact h4

/-- Witness for C7: the empty manifest, where the single augmentation
invocation over the (empty) accepted set is immediately followed by the
persist. -/
theorem augmentation_invoked_once_then_persisted_witness :
    ∃ pre, [Event.augmentCall "flip" ([] : List (Option String)),
        Event.persistCall DATASET_PATH] =
      pre ++ [Event.augmentCall "flip" (([] : List Row).map Row.path),
        Event.persistCall DATASET_PATH] ∧
      ∀ e ∈ pre, ∃ i, e = Event.netCall i :=
  augmentation_invoked_once_then_persisted (fun _ => FetchOutcome.success)
    "flip" [] [] ⟨[], []⟩ [] ⟨[], []⟩
    [Event.augmentCall "flip" [], Event.persistCall DATASET_PATH] rfl

/-- An abstract raster image: a width, a height, and a pixel function.
Pixel values are abstracted over an arbitrary type; PIL mode conversion is
outside the model. -/
structure Img (α : Type) where
  width : Nat
  height : Nat
  pix : Nat → Nat → α

/-- `FeatureExtractor.make_square_with_bb` (feature.py lines 130-136): a
blank square canvas of side `max(min_size, width, height)` filled with the
fill value, with the original pasted at offsets `int((size - x)/2)` and
`int((size - y)/2)` — truncation equals floor here since `size ≥ x` and
`size ≥ y` make both quotients non-negative. -/
def make_square_with_bb {α : Type} (im : Img α) (min_size : Nat) (fill_color : α) :
    Img α :=
  let x := im.width
  let y := im.height
  let size := max min_size (max x y)
  { width := size
    height := size
    pix := fun i j =>
      if (size - x) / 2 ≤ i ∧ i < (size - x) / 2 + x ∧
          (size - y) / 2 ≤ j ∧ j < (size - y) / 2 + y then
        im.pix (i - (size - x) / 2) (j - (size - y) / 2)
      else fill_color }

/-- Claim C5: `make_square_with_bb` returns a square image whose side is
`max(min_size, width, height)` (hence at least `min_size`); the original
pixel content appears unmodified at the integer-floor centering offsets,
and every pixel outside the pasted region holds the fill value. -/
theorem make_square_with_bb_canonical {α : Type} (im : Img α) (min_size : Nat)
    (fill : α) :
    (make_square_with_bb im min_size fill).width =
        (make_square_with_bb im min_size fill).height ∧
    (make_square_with_bb im min_size fill).width =
        max min_size (max im.width im.height) ∧
    min_size ≤ (make_square_with_bb im min_size fill).width ∧
    (∀ i j, i < im.width → j < im.height →
      (make_square_with_bb im min_size fill).pix
        ((max min_size (max im.width im.height) - im.width) / 2 + i)
        ((max min_size (max im.width im.height) - im.height) / 2 + j) =
        im.pix i j) ∧
    (∀ i j,
      (i < (max min_size (max im.width im.height) - im.width) / 2 ∨
        (max min_size (max im.width im.height) - im.width) / 2 + im.width ≤ i ∨
        j < (max min_size (max im.width im.height) - im.height) / 2 ∨
        (max min_size (max im.width im.height) - im.height) / 2 + im.height ≤ j) →
      (make_square_with_bb im min_size fill).pix i j = fill) := by
  refine ⟨rfl, rfl, le_max_left _ _, ?_, ?_⟩
  · intro i j hi hj
    simp only [make_square_with_bb]
    rw [if_pos]
    · congr 1
      · omega
      · omega
    · refine ⟨Nat.le_add_right _ _, by omega, Nat.le_add_right _ _, by omega⟩
  · intro i j hout
    simp only [make_square_with_bb]
    rw [if_neg]
    omega

/-- Witness for C5 at a concrete 2x1 image padded to a 4x4 canvas: the
pixel pasted at offsets (1, 1) is the original pixel (1, 0), and a corner
pixel holds the fill value. -/
theorem make_square_with_bb_canonical_witness :
    (make_square_with_bb (⟨2, 1, fun i j => 10 * i + j⟩ : Img Nat) 4 99).pix 2 1 = 10 ∧
    (make_square_with_bb (⟨2, 1, fun i j => 10 * i + j⟩ : Img Nat) 4 99).pix 0 0 = 99 := by
  constructor
  · have h := (make_square_with_bb_canonical
      (⟨2, 1, fun i j => 10 * i + j⟩ : Img Nat) 4 99).2.2.2.1 1 0 (by decide) (by decide)
    simpa using h
  · have h := (make_square_with_bb_canonical
      (⟨2, 1, fun i j => 10 * i + j⟩ : Img Nat) 4 99).2.2.2.2 0 0 (by norm_num)
    simpa using h

/-- Claim C9 counterexample: computing a record's image path is not free
of side effects — `img_path_from_row` itself creates the record's category
directory when it is absent, so the file system changes. -/
theorem img_path_from_row_changes_fs :
    (img_path_from_row ⟨"A", "A", some "u.jpg", none⟩ 0 none ⟨[], []⟩).2 ≠
      (⟨[], []⟩ : FS) ∧
    (img_path_from_row ⟨"A", "A", some "u.jpg", none⟩ 0 none ⟨[], []⟩).2.dirs =
      ["data/ft_db/A"] := by
  constructor
  · decide
  · rfl

/-- Claim C9 (amended): computing a record's fetch path has exactly one
side effect — `img_path_from_row` creates the category directory (derived
from the record's `species` column) when it is absent, and touches nothing
else: the files are unchanged, the directories gain at most that one
entry, and when the directory already exists the file system is returned
unchanged.  (The feature-side helpers `l_dirpath_from_row` and
`path_from_row_ft` are pure string functions of the row and take no file
system at all.) -/
theorem img_path_from_row_side_effect (row : Row) (index : Nat)
    (extra : Option String) (fs : FS) :
    (img_path_from_row row index extra fs).2.files = fs.files ∧
    (∀ d, d ∈ (img_path_from_row row index extra fs).2.dirs ↔
      d ∈ fs.dirs ∨ d = img_dir_str row.species) ∧
    (img_dir_str row.species ∈ fs.dirs →
      (img_path_from_row row index extra fs).2 = fs) := by
  by_cases hdir : img_dir_str row.species ∈ fs.dirs
  · cases hurlo : row.url with
    | none =>
      refine ⟨by simp [img_path_from_row, hurlo, hdir], ?_, ?_⟩
      · intro d
        simp only [img_path_from_row, hurlo, hdir, if_pos]
        constructor
        · exact fun h => Or.inl h
        · intro h
          rcases h with h | h
          · exact h
          · rw [h]
            exact hdir
      · intro _
        simp [img_path_from_row, hurlo, hdir]
    | some u =>
      refine ⟨by simp [img_path_from_row, hurlo, hdir], ?_, ?_⟩
      · intro d
        simp only [img_path_from_row, hurlo, hdir, if_pos]
        constructor
        · exact fun h => Or.inl h
        · intro h
          rcases h with h | h
          · exact h
          · rw [h]
            exact hdir
      · intro _
        simp [img_path_from_row, hurlo, hdir]
  · cases hurlo : row.url with
    | none =>
      refine ⟨by simp [img_path_from_row, hurlo, hdir], ?_, ?_⟩
      · intro d
        simp [img_path_from_row, hurlo, hdir, List.mem_cons]
        tauto
      · intro h
        exact absurd h hdir
    | some u =>
      refine ⟨by simp [img_path_from_row, hurlo, hdir], ?_, ?_⟩
      · intro d
        simp [img_path_from_row, hurlo, hdir, List.mem_cons]
        tauto
      · intro h
        exact absurd h hdir

/-- Witness for the amended C9: when the category directory already
exists, the file system is returned unchanged. -/
theorem img_path_from_row_side_effect_witness :
    (img_path_from_row ⟨"A", "A", some "u.jpg", none⟩ 0 none
      ⟨[], ["data/ft_db/A"]⟩).2 = (⟨[], ["data/ft_db/A"]⟩ : FS) :=
  (img_path_from_row_side_effect ⟨"A", "A", some "u.jpg", none⟩ 0 none
    ⟨[], ["data/ft_db/A"]⟩).2.2 (by decide)

/-- Write a file: create it if absent (an overwrite leaves the set of
existing files unchanged). -/
def fileInsert (fs : FS) (p : String) : FS :=
  if p ∈ fs.files then fs else ⟨p :: fs.files, fs.dirs⟩

/-- Python `name.split(".")[0]`: the part of a file name before its first
dot. -/
def pyBase (name : String) : String :=
  String.mk ((pySplitChar '.' name.data).headD name.data)

/-- `FeatureExtractor.rotate_and_save_image` (feature.py lines 158-169):
open the image (an `IOError` on a missing source is caught and only
printed), rotate, and save under the degree-suffixed name. -/
def rotate_and_save_image (img_path name : String) (degree : Nat) (fs : FS) : FS :=
  if (img_path ++ "/" ++ name) ∈ fs.files then
    fileInsert fs (img_path ++ "/" ++ pyBase name ++ "_" ++ natRepr degree ++ ".jpg")
  else fs

/-- `FeatureExtractor.flip_and_save_image` (feature.py lines 171-181):
open the image (an `IOError` on a missing source is caught and only
printed), mirror horizontally, and save under the name with a trailing
`f`. -/
def flip_and_save_image (img_path name : String) (fs : FS) : FS :=
  if (img_path ++ "/" ++ name) ∈ fs.files then
    fileInsert fs (img_path ++ "/" ++ pyBase name ++ "f.jpg")
  else fs

/-- `FeatureExtractor.create_augmented_images` (feature.py lines 138-155)
restricted to one directory of the walk: `names` is the directory listing
snapshot (`sub_dir[2]`) taken before any derived file is written.  For
mode `all`, each loop iteration rotates by `i*90` and immediately flips
the just-written rotated output. -/
def create_augmented_images (dir_path : String) (names : List String)
    (degrees : String) (fs : FS) : FS :=
  names.foldl
    (fun fs1 image_name =>
      if degrees = "all" then
        (List.range 4).foldl
          (fun fs2 i =>
            flip_and_save_image dir_path
              (pyBase image_name ++ "_" ++ natRepr (i * 90) ++ ".jpg")
              (rotate_and_save_image dir_path image_name (i * 90) fs2))
          fs1
      else if degrees = "rotate" then
        (List.range 4).foldl
          (fun fs2 i => rotate_and_save_image dir_path image_name (i * 90) fs2)
          fs1
      else if degrees = "flip" then flip_and_save_image dir_path image_name fs1
      else fs1)
    fs

/-- The file written by rotating `name` by `degree`. -/
def rotFile (dir_path name : String) (degree : Nat) : String :=
  dir_path ++ "/" ++ pyBase name ++ "_" ++ natRepr degree ++ ".jpg"

/-- The file written by flipping `name`. -/
def flipFile (dir_path name : String) : String :=
  dir_path ++ "/" ++ pyBase name ++ "f.jpg"

/-- The eight files mode `all` derives from one original: the four
rotations and the flip of each rotated output. -/
def augNames (dir_path name : String) : List String :=
  ["_0.jpg", "_0f.jpg", "_90.jpg", "_90f.jpg", "_180.jpg", "_180f.jpg",
   "_270.jpg", "_270f.jpg"].map fun suf => dir_path ++ "/" ++ pyBase name ++ suf

theorem fileInsert_mem (fs : FS) (q p : String) :
    p ∈ (fileInsert fs q).files ↔ p = q ∨ p ∈ fs.files := by
  unfold fileInsert
  by_cases h : q ∈ fs.files
  · simp only [h, if_true]
    constructor
    · exact fun hp => Or.inr hp
    · intro hp
      rcases hp with hp | hp
      · rw [hp]
        exact h
      · exact hp
  · simp [h, List.mem_cons]

theorem fileInsert_mono {fs : FS} {p : String} (q : String) (h : p ∈ fs.files) :
    p ∈ (fileInsert fs q).files :=
  (fileInsert_mem fs q p).mpr (Or.inr h)

theorem fileInsert_self (fs : FS) (q : String) : q ∈ (fileInsert fs q).files :=
  (fileInsert_mem fs q q).mpr (Or.inl rfl)

theorem fileInsert_dirs (fs : FS) (q : String) : (fileInsert fs q).dirs = fs.dirs := by
  unfold fileInsert
  by_cases h : q ∈ fs.files <;> simp [h]

theorem rotate_eq (img_path name : String) (degree : Nat) (fs : FS)
    (hopen : (img_path ++ "/" ++ name) ∈ fs.files) :
    rotate_and_save_image img_path name degree fs =
      fileInsert fs (rotFile img_path name degree) := by
  unfold rotate_and_save_image
  rw [if_pos hopen]
  rfl

theorem flip_eq (img_path name : String) (fs : FS)
    (hopen : (img_path ++ "/" ++ name) ∈ fs.files) :
    flip_and_save_image img_path name fs = fileInsert fs (flipFile img_path name) := by
  unfold flip_and_save_image
  rw [if_pos hopen]
  rfl

theorem str_append_assoc (a b c : String) : a ++ b ++ c = a ++ (b ++ c) := by
  apply string_data_inj
  simp [String.data_append, List.append_assoc]

theorem pyBase_no_dot (name : String) : ('.' : Char) ∉ (pyBase name).data := by
  unfold pyBase
  cases h : pySplitChar '.' name.data with
  | nil => exact absurd h (pySplitChar_ne_nil '.' name.data)
  | cons a t =>
    have hh := pySplitChar_head_no_sep '.' name.data
    rw [h] at hh
    simpa using hh

theorem pyBase_dotfree_jpg (y : String) (hy : ('.' : Char) ∉ y.data) :
    pyBase (y ++ ".jpg") = y := by
  unfold pyBase
  have hd : (y ++ ".jpg").data = y.data ++ '.' :: "jpg".data := by
    rw [String.data_append]
  rw [hd, pySplitChar_append '.' y.data _ hy]
  apply string_data_inj
  simp

theorem pyBase_flipname (name : String) (d : Nat) :
    pyBase (pyBase name ++ "_" ++ natRepr d ++ ".jpg") =
      pyBase name ++ "_" ++ natRepr d := by
  apply pyBase_dotfree_jpg
  intro h
  rw [String.data_append, String.data_append] at h
  rcases List.mem_append.mp h with h1 | h1
  · rcases List.mem_append.mp h1 with h2 | h2
    · exact pyBase_no_dot name h2
    · revert h2
      decide
  · exact natRepr_no_dot d h1

theorem aug_all_single (dir name : String) (fs : FS)
    (hopen : (dir ++ "/" ++ name) ∈ fs.files) :
    create_augmented_images dir [name] "all" fs =
      fileInsert (fileInsert (fileInsert (fileInsert (fileInsert (fileInsert
        (fileInsert (fileInsert fs
        (rotFile dir name 0))
        (flipFile dir (pyBase name ++ "_" ++ natRepr 0 ++ ".jpg")))
        (rotFile dir name 90))
        (flipFile dir (pyBase name ++ "_" ++ natRepr 90 ++ ".jpg")))
        (rotFile dir name 180))
        (flipFile dir (pyBase name ++ "_" ++ natRepr 180 ++ ".jpg")))
        (rotFile dir name 270))
        (flipFile dir (pyBase name ++ "_" ++ natRepr 270 ++ ".jpg")) := by
  have hname : ∀ d : Nat,
      dir ++ "/" ++ (pyBase name ++ "_" ++ natRepr d ++ ".jpg") = rotFile dir name d := by
    intro d
    simp [rotFile, str_append_assoc]
  unfold create_augmented_images
  simp only [List.foldl_cons, List.foldl_nil]
  simp only [if_true]
  rw [show List.range 4 = [0, 1, 2, 3] from rfl]
  simp only [List.foldl_cons, List.foldl_nil]
  norm_num
  rw [rotate_eq dir name 0 fs hopen]
  rw [flip_eq dir (pyBase name ++ "_" ++ natRepr 0 ++ ".jpg") _
    (by rw [hname 0]; exact fileInsert_self _ _)]
  rw [rotate_eq dir name 90 _
    (fileInsert_mono _ (fileInsert_mono _ hopen))]
  rw [flip_eq dir (pyBase name ++ "_" ++ natRepr 90 ++ ".jpg") _
    (by rw [hname 90]; exact fileInsert_self _ _)]
  rw [rotate_eq dir name 180 _
    (fileInsert_mono _ (fileInsert_mono _ (fileInsert_mono _ (fileInsert_mono _ hopen))))]
  rw [flip_eq dir (pyBase name ++ "_" ++ natRepr 180 ++ ".jpg") _
    (by rw [hname 180]; exact fileInsert_self _ _)]
  rw [rotate_eq dir name 270 _
    (fileInsert_mono _ (fileInsert_mono _ (fileInsert_mono _ (fileInsert_mono _
      (fileInsert_mono _ (fileInsert_mono _ hopen))))))]
  rw [flip_eq dir (pyBase name ++ "_" ++ natRepr 270 ++ ".jpg") _
    (by rw [hname 270]; exact fileInsert_self _ _)]

/-- Claim C8: for mode `all` on one input image, exactly 8 distinct
derived files are produced — the 4 rotations at 0, 90, 180 and 270
degrees, each saved with a degree suffix, and the horizontal flip of each
rotated output, named with a trailing `f`; the resulting file system holds
precisely the original files plus these 8. -/
theorem create_augmented_all_fanout (dir name : String) (fs : FS)
    (hopen : (dir ++ "/" ++ name) ∈ fs.files) :
    (∀ p, p ∈ (create_augmented_images dir [name] "all" fs).files ↔
      p ∈ fs.files ∨ p ∈ augNames dir name) ∧
    (augNames dir name).Nodup ∧
    (augNames dir name).length = 8 ∧
    ∀ d ∈ ([0, 90, 180, 270] : List Nat),
      rotFile dir name d ∈ (create_augmented_images dir [name] "all" fs).files ∧
      flipFile dir (pyBase name ++ "_" ++ natRepr d ++ ".jpg") ∈
        (create_augmented_images dir [name] "all" fs).files := by
  have hn0 : natRepr 0 = "0" := rfl
  have hn90 : natRepr 90 = "90" := rfl
  have hn180 : natRepr 180 = "180" := rfl
  have hn270 : natRepr 270 = "270" := rfl
  have er : ∀ (d : Nat) (sd : String), natRepr d = sd →
      rotFile dir name d = dir ++ "/" ++ pyBase name ++ ("_" ++ sd ++ ".jpg") := by
    intro d sd hsd
    simp only [rotFile, hsd]
    apply string_data_inj
    simp [String.data_append, List.append_assoc]
  have ef : ∀ (d : Nat) (sd : String), natRepr d = sd →
      flipFile dir (pyBase name ++ "_" ++ natRepr d ++ ".jpg") =
        dir ++ "/" ++ pyBase name ++ ("_" ++ sd ++ "f.jpg") := by
    intro d sd hsd
    simp only [flipFile]
    rw [pyBase_flipname name d, hsd]
    apply string_data_inj
    simp [String.data_append, List.append_assoc]
  have hiff : ∀ p, p ∈ (create_augmented_images dir [name] "all" fs).files ↔
      p ∈ fs.files ∨ p ∈ augNames dir name := by
    intro p
    rw [aug_all_single dir name fs hopen]
    simp only [fileInsert_mem]
    rw [er 0 "0" hn0, er 90 "90" hn90, er 180 "180" hn180, er 270 "270" hn270,
      ef 0 "0" hn0, ef 90 "90" hn90, ef 180 "180" hn180, ef 270 "270" hn270]
    have haug : ∀ q, q ∈ augNames dir name ↔
        q = dir ++ "/" ++ pyBase name ++ "_0.jpg" ∨
        q = dir ++ "/" ++ pyBase name ++ "_0f.jpg" ∨
        q = dir ++ "/" ++ pyBase name ++ "_90.jpg" ∨
        q = dir ++ "/" ++ pyBase name ++ "_90f.jpg" ∨
        q = dir ++ "/" ++ pyBase name ++ "_180.jpg" ∨
        q = dir ++ "/" ++ pyBase name ++ "_180f.jpg" ∨
        q = dir ++ "/" ++ pyBase name ++ "_270.jpg" ∨
        q = dir ++ "/" ++ pyBase name ++ "_270f.jpg" := by
      intro q
      simp [augNames]
    rw [haug p]
    have hs : ∀ sd : String,
        dir ++ "/" ++ pyBase name ++ sd = dir ++ "/" ++ pyBase name ++ sd := fun _ => rfl
    constructor
    · intro h
      rcases h with h | h | h | h | h | h | h | h | h <;> tauto
    · intro h
      rcases h with h | h
      · tauto
      · rcases h with h | h | h | h | h | h | h | h <;> tauto
  refine ⟨hiff, ?_, ?_, ?_⟩
  · apply List.Nodup.map
    · intro s t hst
      exact string_append_left_cancel hst
    · decide
  · rfl
  · intro d hd
    have hmem : ∀ sd : String, natRepr d = sd →
        (dir ++ "/" ++ pyBase name ++ ("_" ++ sd ++ ".jpg") ∈ augNames dir name →
          rotFile dir name d ∈
            (create_augmented_images dir [name] "all" fs).files) ∧
        (dir ++ "/" ++ pyBase name ++ ("_" ++ sd ++ "f.jpg") ∈ augNames dir name →
          flipFile dir (pyBase name ++ "_" ++ natRepr d ++ ".jpg") ∈
            (create_augmented_images dir [name] "all" fs).files) := by
      intro sd hsd
      constructor
      · intro hin
        rw [er d sd hsd]
        exact (hiff _).mpr (Or.inr hin)
      · intro hin
        rw [ef d sd hsd]
        exact (hiff _).mpr (Or.inr hin)
    rcases List.mem_cons.mp hd with h | hd
    · subst h
      exact ⟨(hmem "0" hn0).1 (by simp [augNames]), (hmem "0" hn0).2 (by simp [augNames])⟩
    rcases List.mem_cons.mp hd with h | hd
    · subst h
      exact ⟨(hmem "90" hn90).1 (by simp [augNames]),
        (hmem "90" hn90).2 (by simp [augNames])⟩
    rcases List.mem_cons.mp hd with h | hd
    · subst h
      exact ⟨(hmem "180" hn180).1 (by simp [augNames]),
        (hmem "180" hn180).2 (by simp [augNames])⟩
    rcases List.mem_cons.mp hd with h | hd
    · subst h
      exact ⟨(hmem "270" hn270).1 (by simp [augNames]),
        (hmem "270" hn270).2 (by simp [augNames])⟩
    cases hd

/-- Witness for C8 at a concrete directory and image. -/
theorem create_augmented_all_fanout_witness :
    (∀ p, p ∈ (create_augmented_images "imgs" ["x.jpg"] "all"
        ⟨["imgs/x.jpg"], []⟩).files ↔
      p ∈ (⟨["imgs/x.jpg"], []⟩ : FS).files ∨ p ∈ augNames "imgs" "x.jpg") ∧
    (augNames "imgs" "x.jpg").Nodup ∧
    (augNames "imgs" "x.jpg").length = 8 ∧
    ∀ d ∈ ([0, 90, 180, 270] : List Nat),
      rotFile "imgs" "x.jpg" d ∈ (create_augmented_images "imgs" ["x.jpg"] "all"
        ⟨["imgs/x.jpg"], []⟩).files ∧
      flipFile "imgs" (pyBase "x.jpg" ++ "_" ++ natRepr d ++ ".jpg") ∈
        (create_augmented_images "imgs" ["x.jpg"] "all" ⟨["imgs/x.jpg"], []⟩).files :=
  create_augmented_all_fanout "imgs" "x.jpg" ⟨["imgs/x.jpg"], []⟩ (by decide)

/-- The file extensions PIL's `Image.save` can infer a writer for.  The
fetch scheme's `npy` suffix is not among them — numpy arrays are written
by `np.save`, not PIL — so saving under a fetch-produced `..._0.npy` path
raises `ValueError` ("unknown file extension"). -/
def PIL_SAVE_EXTENSIONS : List String :=
  ["jpg", "jpeg", "png", "bmp", "gif", "tiff", "webp"]

/-- Whether `Image.save` can infer a writer for this file name: PIL looks
up the extension (the part after the last dot); registered extensions
succeed, anything else raises `ValueError`.  (Case normalization is
omitted; all paths in this pipeline are lower-case.) -/
def pil_saveable (p : String) : Bool :=
  PIL_SAVE_EXTENSIONS.contains (String.mk (pyNeg1 (pySplitChar '.' p.data) []))

/-- The loop body of `FeatureExtractor.pre_process` (feature.py lines
28-51), processing rows from positional index `i` on.  Per row: compute
the feature output path and the per-category feature directory; on a cache
hit record the path without recomputation.  On a miss, `Image.open` the
canonical image — a missing (`NaN`) `path` cell fails with an attribute
error on the float, and a path absent from disk raises
`FileNotFoundError`, both uncaught — then apply the named transform only
for `lbp`, recording the path in that case and leaving the null marker for
any other identifier (the `sift`/`glcm` branches are `pass`), create the
feature directory if absent, and `img.save` at the output path: PIL infers
the writer from the file extension, so a path that inherits the fetch
scheme's `.npy` suffix raises an uncaught `ValueError` and aborts the
pass.  As in the fetch model, state changes made before an uncaught
exception are discarded together with the raised error.  Image content
(the square padding and the optional resize) is outside the
file-name-level model. -/
def pre_process_go (save_path feature : String) :
    Nat → List Row → St → Except PyErr (List (Option String) × St)
  | _, [], s => Except.ok ([], s)
  | i, r :: rs, s =>
    let p_new := path_from_row_ft save_path r feature
    let l_new := l_dirpath_from_row save_path r feature
    if p_new ∈ s.fs.files then
      match pre_process_go save_path feature (i + 1) rs s with
      | Except.error e => Except.error e
      | Except.ok (ps, s') => Except.ok (some p_new :: ps, s')
    else
      match r.path with
      | none => Except.error PyErr.attrError
      | some pp =>
        if pp ∈ s.fs.files then
          let entry : Option String := if feature = "lbp" then some p_new else none
          let s1 : St :=
            if feature = "lbp" then ⟨s.fs, s.events ++ [Event.applyTransform "lbp" i]⟩
            else s
          let fs1 : FS :=
            ⟨s1.fs.files,
              if l_new ∈ s1.fs.dirs then s1.fs.dirs else l_new :: s1.fs.dirs⟩
          if pil_saveable p_new then
            let fs2 : FS :=
              ⟨if p_new ∈ fs1.files then fs1.files else p_new :: fs1.files, fs1.dirs⟩
            match pre_process_go save_path feature (i + 1) rs ⟨fs2, s1.events⟩ with
            | Except.error e => Except.error e
            | Except.ok (ps, s') => Except.ok (entry :: ps, s')
          else Except.error PyErr.valueError
        else Except.error PyErr.fileNotFound

/-- `FeatureExtractor.pre_process` (feature.py lines 25-54): run the
per-row pass from index 0, then set the feature column and persist the
manifest to its fixed location. -/
def pre_process (save_path feature : String) (df : List Row) (s : St) :
    Except PyErr (List (Option String) × St) :=
  match pre_process_go save_path feature 0 df s with
  | Except.error e => Except.error e
  | Except.ok (ps, s') =>
    Except.ok (ps, ⟨s'.fs, s'.events ++ [Event.persistCall DATASET_PATH]⟩)

/-- The indices at which `pre_process` applies the `lbp` transform: exactly
the rows whose feature output path is absent from the initial file
system. -/
def lbpEvents (save_path : String) (fs0 : FS) : Nat → List Row → List Event
  | _, [] => []
  | i, r :: rs =>
    if path_from_row_ft save_path r "lbp" ∈ fs0.files then
      lbpEvents save_path fs0 (i + 1) rs
    else Event.applyTransform "lbp" i :: lbpEvents save_path fs0 (i + 1) rs

/-- Claim C6 counterexample, two parts.  First: on a cache miss for a
record whose canonical path came from fetch (so the output path inherits
the `_0.npy` suffix), `pre_process` does not compute, write and record —
`img.save` raises `ValueError` (PIL has no `.npy` writer) and the whole
pass aborts, persisting nothing, even for `lbp`.  Second: even when the
output extension is writable (a hand-made `.png` manifest entry, the file
present on disk), a `sift` miss completes but records the null marker
instead of the output path, and applies no transform (no
`applyTransform` event) — the `sift` branch is `pass` and
`paths[int(index)] = p_new` is set only under `lbp`. -/
theorem pre_process_miss_aborts_or_discards :
    pre_process FEATURE_DIR_PATH "lbp"
      [⟨"A", "A", some "u.jpg", some "data/ft_db/A/0_0.npy"⟩]
      ⟨⟨["data/ft_db/A/0_0.npy"], []⟩, []⟩ = Except.error PyErr.valueError ∧
    pre_process FEATURE_DIR_PATH "sift"
      [⟨"A", "A", some "u.jpg", some "data/ft_db/A/0_0.png"⟩]
      ⟨⟨["data/ft_db/A/0_0.png"], []⟩, []⟩ =
      Except.ok ([none],
        ⟨⟨["data/ft_sift/A/0_0.png", "data/ft_db/A/0_0.png"], ["data/ft_sift/A/"]⟩,
          [Event.persistCall DATASET_PATH]⟩) ∧
    (none : Option String) ≠
      some (path_from_row_ft FEATURE_DIR_PATH
        ⟨"A", "A", some "u.jpg", some "data/ft_db/A/0_0.png"⟩ "sift") :=
  ⟨rfl, rfl, by decide⟩

theorem lbpEvents_congr (save_path : String) (fsA fsB : FS) :
    ∀ (rs : List Row) (k : Nat),
      (∀ r ∈ rs, (path_from_row_ft save_path r "lbp" ∈ fsA.files ↔
        path_from_row_ft save_path r "lbp" ∈ fsB.files)) →
      lbpEvents save_path fsA k rs = lbpEvents save_path fsB k rs := by
  intro rs
  induction rs with
  | nil => intro k _; rfl
  | cons r rs ih =>
    intro k hiff
    have hr := hiff r (List.mem_cons_self r rs)
    have htail : ∀ r' ∈ rs, (path_from_row_ft save_path r' "lbp" ∈ fsA.files ↔
        path_from_row_ft save_path r' "lbp" ∈ fsB.files) :=
      fun r' hr' => hiff r' (List.mem_cons_of_mem r hr')
    by_cases hA : path_from_row_ft save_path r "lbp" ∈ fsA.files
    · have hB := hr.mp hA
      simp only [lbpEvents, hA, hB, if_true]
      exact ih (k + 1) htail
    · have hB : path_from_row_ft save_path r "lbp" ∉ fsB.files :=
        fun hc => hA (hr.mpr hc)
      simp only [lbpEvents, hA, hB, if_false]
      rw [ih (k + 1) htail]

theorem pre_process_go_all_cached (save_path feature : String) :
    ∀ (rs : List Row) (k : Nat) (s : St),
      (∀ r ∈ rs, path_from_row_ft save_path r feature ∈ s.fs.files) →
      pre_process_go save_path feature k rs s =
        Except.ok (rs.map fun r => some (path_from_row_ft save_path r feature), s) := by
  intro rs
  induction rs with
  | nil => intro k s _; rfl
  | cons r rs ih =>
    intro k s hc
    have hr := hc r (List.mem_cons_self r rs)
    simp only [pre_process_go, hr, if_true]
    rw [ih (k + 1) s fun r' hr' => hc r' (List.mem_cons_of_mem r hr')]
    rfl

theorem pre_process_go_lbp (save_path : String) :
    ∀ (rs : List Row) (k : Nat) (s : St),
      (∀ r ∈ rs, ∃ pp, r.path = some pp ∧ pp ∈ s.fs.files) →
      (∀ r ∈ rs, pil_saveable (path_from_row_ft save_path r "lbp") = true) →
      (rs.map fun r => path_from_row_ft save_path r "lbp").Nodup →
      ∃ files' dirs',
        pre_process_go save_path "lbp" k rs s =
          Except.ok (rs.map fun r => some (path_from_row_ft save_path r "lbp"),
            ⟨⟨files', dirs'⟩, s.events ++ lbpEvents save_path s.fs k rs⟩) ∧
        (∀ p, p ∈ files' ↔ p ∈ s.fs.files ∨
          ∃ r ∈ rs, path_from_row_ft save_path r "lbp" = p) := by
  intro rs
  induction rs with
  | nil =>
    intro k s _ _ _
    exact ⟨s.fs.files, s.fs.dirs, by simp [pre_process_go, lbpEvents], by simp⟩
  | cons r rs ih =>
    intro k s hpath hsv hnd
    have hptail : ∀ r' ∈ rs, ∃ pp, r'.path = some pp ∧ pp ∈ s.fs.files :=
      fun r' hr' => hpath r' (List.mem_cons_of_mem r hr')
    have hsvtail : ∀ r' ∈ rs, pil_saveable (path_from_row_ft save_path r' "lbp") = true :=
      fun r' hr' => hsv r' (List.mem_cons_of_mem r hr')
    have hnd2 := hnd
    rw [List.map_cons, List.nodup_cons] at hnd2
    have hndtail : (rs.map fun r' => path_from_row_ft save_path r' "lbp").Nodup :=
      hnd2.2
    have hne : ∀ r' ∈ rs, path_from_row_ft save_path r' "lbp" ≠
        path_from_row_ft save_path r "lbp" := by
      intro r' hr' he
      exact hnd2.1 (he ▸ List.mem_map_of_mem _ hr')
    obtain ⟨pp, hu, hpf⟩ := hpath r (List.mem_cons_self r rs)
    by_cases hmem : path_from_row_ft save_path r "lbp" ∈ s.fs.files
    · obtain ⟨F, D, hrec, hif⟩ := ih (k + 1) s hptail hsvtail hndtail
      refine ⟨F, D, ?_, ?_⟩
      · simp only [pre_process_go, hmem, if_true]
        rw [hrec]
        simp only [lbpEvents, hmem, if_true, List.map_cons]
      · intro p
        rw [hif p]
        constructor
        · intro h1
          rcases h1 with h1 | ⟨r', hr', he⟩
          · exact Or.inl h1
          · exact Or.inr ⟨r', List.mem_cons_of_mem r hr', he⟩
        · intro h1
          rcases h1 with h1 | ⟨r', hr', he⟩
          · exact Or.inl h1
          · rcases List.mem_cons.mp hr' with h2 | h2
            · subst h2
              exact Or.inl (he ▸ hmem)
            · exact Or.inr ⟨r', h2, he⟩
    · have hs1 : ∀ r' ∈ rs,
          (path_from_row_ft save_path r' "lbp" ∈
            (path_from_row_ft save_path r "lbp" :: s.fs.files) ↔
            path_from_row_ft save_path r' "lbp" ∈ s.fs.files) := by
        intro r' hr'
        constructor
        · intro h1
          rcases List.mem_cons.mp h1 with h2 | h2
          · exact absurd h2 (hne r' hr')
          · exact h2
        · exact fun h2 => List.mem_cons_of_mem _ h2
      have hptail2 : ∀ r' ∈ rs, ∃ pp2, r'.path = some pp2 ∧
          pp2 ∈ path_from_row_ft save_path r "lbp" :: s.fs.files := by
        intro r' hr'
        obtain ⟨pp2, hc, hf⟩ := hptail r' hr'
        exact ⟨pp2, hc, List.mem_cons_of_mem _ hf⟩
      obtain ⟨F, D, hrec, hif⟩ := ih (k + 1)
        ⟨⟨path_from_row_ft save_path r "lbp" :: s.fs.files,
          if l_dirpath_from_row save_path r "lbp" ∈ s.fs.dirs then s.fs.dirs
          else l_dirpath_from_row save_path r "lbp" :: s.fs.dirs⟩,
          s.events ++ [Event.applyTransform "lbp" k]⟩ hptail2 hsvtail hndtail
      refine ⟨F, D, ?_, ?_⟩
      · simp only [pre_process_go, hu, if_true, hmem, if_false, hpf,
          hsv r (List.mem_cons_self r rs)]
        rw [hrec]
        simp only [List.map_cons]
        have hev : lbpEvents save_path
            (⟨path_from_row_ft save_path r "lbp" :: s.fs.files,
              if l_dirpath_from_row save_path r "lbp" ∈ s.fs.dirs then s.fs.dirs
              else l_dirpath_from_row save_path r "lbp" :: s.fs.dirs⟩ : FS)
            (k + 1) rs = lbpEvents save_path s.fs (k + 1) rs :=
          lbpEvents_congr save_path _ s.fs rs (k + 1) hs1
        rw [hev]
        simp only [lbpEvents, hmem, if_false]
        simp [List.append_assoc]
      · intro p
        rw [hif p]
        simp only [List.mem_cons]
        constructor
        · intro h1
          rcases h1 with (h1 | h1) | ⟨r', hr', he⟩
          · exact Or.inr ⟨r, Or.inl rfl, h1.symm⟩
          · exact Or.inl h1
          · exact Or.inr ⟨r', Or.inr hr', he⟩
        · intro h1
          rcases h1 with h1 | ⟨r', hr', he⟩
          · exact Or.inl (Or.inr h1)
          · rcases hr' with h2 | h2
            · subst h2
              exact Or.inl (Or.inl he.symm)
            · exact Or.inr ⟨r', h2, he⟩

/-- Claim C6 (amended), two halves.  Cache-hit half, any feature
identifier: when every record's output path already exists on disk, each
is reused and recorded without recomputation — the pass completes, leaves
the file system and the event trace untouched except for the final
persist of the manifest to its fixed location.  Miss half, restricted to
`lbp` and to records whose canonical file exists on disk and whose output
path carries a PIL-writable extension: the transform is applied exactly at
the initial cache misses (`lbpEvents`), the output is written, the path is
recorded for every record, and the manifest is persisted, every recorded
path existing on disk afterwards.  The restrictions are forced by the
counterexample: a fetch-produced `.npy` output path makes a miss abort the
whole pass with `ValueError`, and identifiers other than `lbp` record the
null marker on a completing miss. -/
theorem pre_process_cache_contract :
    (∀ (feature : String) (df : List Row) (s : St),
      (∀ r ∈ df, path_from_row_ft FEATURE_DIR_PATH r feature ∈ s.fs.files) →
      pre_process FEATURE_DIR_PATH feature df s =
        Except.ok (df.map fun r => some (path_from_row_ft FEATURE_DIR_PATH r feature),
          ⟨s.fs, s.events ++ [Event.persistCall DATASET_PATH]⟩)) ∧
    (∀ (df : List Row) (s : St),
      (∀ r ∈ df, ∃ pp, r.path = some pp ∧ pp ∈ s.fs.files) →
      (∀ r ∈ df, pil_saveable (path_from_row_ft FEATURE_DIR_PATH r "lbp") = true) →
      (df.map fun r => path_from_row_ft FEATURE_DIR_PATH r "lbp").Nodup →
      ∃ files' dirs',
        pre_process FEATURE_DIR_PATH "lbp" df s =
          Except.ok
            (df.map fun r => some (path_from_row_ft FEATURE_DIR_PATH r "lbp"),
              ⟨⟨files', dirs'⟩,
                (s.events ++ lbpEvents FEATURE_DIR_PATH s.fs 0 df) ++
                  [Event.persistCall DATASET_PATH]⟩) ∧
        (∀ p, p ∈ files' ↔ p ∈ s.fs.files ∨
          ∃ r ∈ df, path_from_row_ft FEATURE_DIR_PATH r "lbp" = p) ∧
        (∀ r ∈ df, path_from_row_ft FEATURE_DIR_PATH r "lbp" ∈ files')) := by
  constructor
  · intro feature df s hc
    simp only [pre_process, pre_process_go_all_cached FEATURE_DIR_PATH feature df 0 s hc]
  · intro df s hpath hsv hnd
    obtain ⟨F, D, hrec, hif⟩ := pre_process_go_lbp FEATURE_DIR_PATH df 0 s hpath hsv hnd
    refine ⟨F, D, ?_, hif, ?_⟩
    · simp only [pre_process, hrec]
    · intro r hr
      exact (hif _).mpr (Or.inr ⟨r, hr, rfl⟩)

/-- Witness for the amended C6: the hit half at a concrete `sift` record
whose output already exists, and the miss half at a concrete `lbp` record
with a writable `.png` output — the transform fires at index 0, the output
file is created, and the path is recorded. -/
theorem pre_process_cache_contract_witness :
    (pre_process FEATURE_DIR_PATH "sift"
      [⟨"A", "A", some "u.jpg", some "data/ft_db/A/0_0.png"⟩]
      ⟨⟨["data/ft_sift/A/0_0.png"], []⟩, []⟩ =
      Except.ok
        ([⟨"A", "A", some "u.jpg", some "data/ft_db/A/0_0.png"⟩].map fun r =>
          some (path_from_row_ft FEATURE_DIR_PATH r "sift"),
          ⟨(⟨["data/ft_sift/A/0_0.png"], []⟩ : FS),
            ([] : List Event) ++ [Event.persistCall DATASET_PATH]⟩)) ∧
    ∃ files' dirs',
      pre_process FEATURE_DIR_PATH "lbp"
        [⟨"A", "A", some "u.jpg", some "data/ft_db/A/0_0.png"⟩]
        ⟨⟨["data/ft_db/A/0_0.png"], []⟩, []⟩ =
        Except.ok
          ([⟨"A", "A", some "u.jpg", some "data/ft_db/A/0_0.png"⟩].map fun r =>
            some (path_from_row_ft FEATURE_DIR_PATH r "lbp"),
            ⟨⟨files', dirs'⟩,
              (([] : List Event) ++ lbpEvents FEATURE_DIR_PATH
                ⟨["data/ft_db/A/0_0.png"], []⟩ 0
                [⟨"A", "A", some "u.jpg", some "data/ft_db/A/0_0.png"⟩]) ++
                [Event.persistCall DATASET_PATH]⟩) ∧
      (∀ p, p ∈ files' ↔ p ∈ (⟨["data/ft_db/A/0_0.png"], []⟩ : FS).files ∨
        ∃ r ∈ [(⟨"A", "A", some "u.jpg", some "data/ft_db/A/0_0.png"⟩ : Row)],
          path_from_row_ft FEATURE_DIR_PATH r "lbp" = p) ∧
      (∀ r ∈ [(⟨"A", "A", some "u.jpg", some "data/ft_db/A/0_0.png"⟩ : Row)],
        path_from_row_ft FEATURE_DIR_PATH r "lbp" ∈ files') :=
  ⟨pre_process_cache_contract.1 "sift"
      [⟨"A", "A", some "u.jpg", some "data/ft_db/A/0_0.png"⟩]
      ⟨⟨["data/ft_sift/A/0_0.png"], []⟩, []⟩ (by decide),
    pre_process_cache_contract.2
      [⟨"A", "A", some "u.jpg", some "data/ft_db/A/0_0.png"⟩]
      ⟨⟨["data/ft_db/A/0_0.png"], []⟩, []⟩ (by decide) (by decide) (by decide)⟩
end P5
